import Mathlib

/-!
Verification of the BrowserOS chat-memory persistence subsystem:
`PersistentMessageManager` (serialization protocol over an in-memory
message pipeline) and the storage adapters `SQLiteChatMemory` /
`InMemoryChatMemory`.

The development shallowly embeds the TypeScript source.  JavaScript
JSON-serializable values are modelled by the inductive `JsonValue`;
the runtime builtins `JSON.stringify` / `JSON.parse` (external to the
repository) are modelled by a concrete, executable, injective
serializer/parser pair `jsonStringify` / `jsonParse` satisfying the
inverse property the source relies on.  String payloads are length
prefixed rather than escaped, which changes only the concrete wire
text, not any property the repository's code depends on.
-/

namespace ChatMemory

/-- Model of a JavaScript JSON-serializable value: the type of message
contents and metadata values flowing through the persistence layer. -/
inductive JsonValue where
  | null
  | bool (b : Bool)
  | num (n : Int)
  | str (s : String)
  | arr (elems : List JsonValue)
  | obj (fields : List (String × JsonValue))

/-- A JavaScript object modelled as an association list preserving key
insertion order (as `Record<string, unknown>` does). -/
abbrev JsonObj := List (String × JsonValue)

mutual
/-- Wire encoding of a `JsonValue` (model of `JSON.stringify` output). -/
def encVal : JsonValue → List Char
  | .null => ['n']
  | .bool true => ['t']
  | .bool false => ['f']
  | .num i => 'i' :: (if i < 0 then '-' else '+') :: (List.replicate i.natAbs 'u' ++ [';'])
  | .str s => 's' :: (List.replicate s.data.length 'u' ++ ':' :: s.data)
  | .arr xs => 'a' :: (encArr xs ++ ['e'])
  | .obj fs => 'o' :: (encObj fs ++ ['e'])

/-- Wire encoding of the element list of a JSON array. -/
def encArr : List JsonValue → List Char
  | [] => []
  | v :: vs => encVal v ++ encArr vs

/-- Wire encoding of the field list of a JSON object. -/
def encObj : List (String × JsonValue) → List Char
  | [] => []
  | (k, v) :: fs => 'k' :: (List.replicate k.data.length 'u' ++ ':' :: k.data) ++ encVal v ++ encObj fs
end

/-- Reads a unary length prefix (a run of `u` characters). -/
def decNatU : List Char → Nat × List Char
  | 'u' :: rest => ((decNatU rest).1 + 1, (decNatU rest).2)
  | cs => (0, cs)

mutual
/-- Fuelled decoder for one `JsonValue`; inverse of `encVal`. -/
def decVal : Nat → List Char → Option (JsonValue × List Char)
  | 0, _ => none
  | _ + 1, 'n' :: cs => some (.null, cs)
  | _ + 1, 't' :: cs => some (.bool true, cs)
  | _ + 1, 'f' :: cs => some (.bool false, cs)
  | _ + 1, 'i' :: sign :: cs =>
    match decNatU cs with
    | (n, ';' :: r2) =>
      if sign = '-' then some (.num (-(n : Int)), r2)
      else if sign = '+' then some (.num (n : Int), r2)
      else none
    | _ => none
  | _ + 1, 's' :: cs =>
    match decNatU cs with
    | (n, ':' :: r2) =>
      if n ≤ r2.length then some (.str (String.mk (r2.take n)), r2.drop n) else none
    | _ => none
  | fuel + 1, 'a' :: cs =>
    match decArr fuel cs with
    | some (vs, r) => some (.arr vs, r)
    | none => none
  | fuel + 1, 'o' :: cs =>
    match decObj fuel cs with
    | some (fs, r) => some (.obj fs, r)
    | none => none
  | _ + 1, _ => none

/-- Fuelled decoder for an array element list, terminated by `e`. -/
def decArr : Nat → List Char → Option (List JsonValue × List Char)
  | 0, _ => none
  | fuel + 1, cs =>
    match cs with
    | 'e' :: r => some ([], r)
    | _ =>
      match decVal fuel cs with
      | some (v, r1) =>
        match decArr fuel r1 with
        | some (vs, r2) => some (v :: vs, r2)
        | none => none
      | none => none

/-- Fuelled decoder for an object field list, terminated by `e`. -/
def decObj : Nat → List Char → Option (List (String × JsonValue) × List Char)
  | 0, _ => none
  | fuel + 1, cs =>
    match cs with
    | 'e' :: r => some ([], r)
    | 'k' :: cs1 =>
      match decNatU cs1 with
      | (n, ':' :: r2) =>
        if n ≤ r2.length then
          match decVal fuel (r2.drop n) with
          | some (v, r3) =>
            match decObj fuel r3 with
            | some (fs, r4) => some ((String.mk (r2.take n), v) :: fs, r4)
            | none => none
          | none => none
        else none
      | _ => none
    | _ => none
end

mutual
/-- Structural size of a `JsonValue`, used as decoder fuel. -/
def vsize : JsonValue → Nat
  | .null => 1
  | .bool _ => 1
  | .num _ => 1
  | .str _ => 1
  | .arr xs => asize xs + 1
  | .obj fs => osize fs + 1

/-- Structural size of an array element list. -/
def asize : List JsonValue → Nat
  | [] => 1
  | v :: vs => vsize v + asize vs + 1

/-- Structural size of an object field list. -/
def osize : List (String × JsonValue) → Nat
  | [] => 1
  | (_, v) :: fs => vsize v + osize fs + 1
end

theorem vsize_pos (v : JsonValue) : 1 ≤ vsize v := by
  cases v <;> simp [vsize]

theorem asize_pos (xs : List JsonValue) : 1 ≤ asize xs := by
  cases xs <;> simp [asize]

theorem osize_pos (fs : List (String × JsonValue)) : 1 ≤ osize fs := by
  cases fs with
  | nil => simp [osize]
  | cons f fs => obtain ⟨k, v⟩ := f; simp [osize]

theorem decNatU_replicate (c : Char) (hc : c ≠ 'u') (n : Nat) (t : List Char) :
    decNatU (List.replicate n 'u' ++ c :: t) = (n, c :: t) := by
  induction n with
  | zero =>
    simp only [List.replicate, List.nil_append]
    rw [decNatU.eq_def]
    split
    · rename_i h; simp at h; exact absurd h.1 hc
    · rfl
  | succ k ih =>
    simp only [List.replicate, List.cons_append]
    rw [decNatU.eq_def]
    simp [ih]

theorem encVal_head (v : JsonValue) :
    ∃ c t, encVal v = c :: t ∧ c ≠ 'e' ∧ c ≠ 'k' := by
  cases v with
  | null => exact ⟨'n', _, rfl, by decide, by decide⟩
  | bool b =>
    cases b with
    | false => exact ⟨'f', _, rfl, by decide, by decide⟩
    | true => exact ⟨'t', _, rfl, by decide, by decide⟩
  | num i => exact ⟨'i', _, rfl, by decide, by decide⟩
  | str s => exact ⟨'s', _, rfl, by decide, by decide⟩
  | arr xs => exact ⟨'a', _, rfl, by decide, by decide⟩
  | obj fs => exact ⟨'o', _, rfl, by decide, by decide⟩

theorem string_mk_data (s : String) : String.mk s.data = s := by cases s; rfl

theorem decEncAux (fuel : Nat) :
    (∀ v rest, vsize v ≤ fuel → decVal fuel (encVal v ++ rest) = some (v, rest)) ∧
    (∀ xs rest, asize xs ≤ fuel → decArr fuel (encArr xs ++ 'e' :: rest) = some (xs, rest)) ∧
    (∀ fs rest, osize fs ≤ fuel → decObj fuel (encObj fs ++ 'e' :: rest) = some (fs, rest)) := by
  induction fuel with
  | zero =>
    refine ⟨fun v rest h => ?_, fun xs rest h => ?_, fun fs rest h => ?_⟩
    · exact absurd h (by have := vsize_pos v; omega)
    · exact absurd h (by have := asize_pos xs; omega)
    · exact absurd h (by have := osize_pos fs; omega)
  | succ f ih =>
    obtain ⟨ihv, iha, iho⟩ := ih
    refine ⟨fun v rest h => ?_, fun xs rest h => ?_, fun fs rest h => ?_⟩
    · cases v with
      | null => simp [encVal, decVal]
      | bool b => cases b <;> simp [encVal, decVal]
      | num i =>
        by_cases hi : i < 0
        · have hrw : encVal (.num i) ++ rest =
              'i' :: '-' :: (List.replicate i.natAbs 'u' ++ ';' :: rest) := by
            simp [encVal, if_pos hi]
          rw [hrw]
          simp only [decVal]
          rw [decNatU_replicate ';' (by decide)]
          simp [abs_of_neg hi]
        · have hrw : encVal (.num i) ++ rest =
              'i' :: '+' :: (List.replicate i.natAbs 'u' ++ ';' :: rest) := by
            simp [encVal, if_neg hi]
          rw [hrw]
          simp only [decVal]
          rw [decNatU_replicate ';' (by decide)]
          simp [abs_of_nonneg (by omega : (0 : Int) ≤ i)]
      | str s =>
        have hrw : encVal (.str s) ++ rest =
            's' :: (List.replicate s.data.length 'u' ++ ':' :: (s.data ++ rest)) := by
          simp [encVal]
        rw [hrw]
        simp only [decVal]
        rw [decNatU_replicate ':' (by decide)]
        have hlen : s.data.length ≤ (s.data ++ rest).length := by simp
        simp only [hlen, if_pos, List.take_left, List.drop_left, string_mk_data]
      | arr xs =>
        have hrw : encVal (.arr xs) ++ rest = 'a' :: (encArr xs ++ 'e' :: rest) := by
          simp [encVal]
        rw [hrw]
        simp only [decVal]
        rw [iha xs rest (by simp [vsize] at h; omega)]
      | obj fs =>
        have hrw : encVal (.obj fs) ++ rest = 'o' :: (encObj fs ++ 'e' :: rest) := by
          simp [encVal]
        rw [hrw]
        simp only [decVal]
        rw [iho fs rest (by simp [vsize] at h; omega)]
    · cases xs with
      | nil => simp [encArr, decArr]
      | cons v vs =>
        have hsz : vsize v ≤ f ∧ asize vs ≤ f := by simp [asize] at h; omega
        obtain ⟨c, t, hv, hce, hck⟩ := encVal_head v
        have hrw : encArr (v :: vs) ++ 'e' :: rest =
            c :: (t ++ (encArr vs ++ 'e' :: rest)) := by
          simp [encArr, hv]
        rw [hrw]
        simp only [decArr]
        split
        · rename_i r heq
          injection heq with h1 _
          exact absurd h1 hce
        · have hback : c :: (t ++ (encArr vs ++ 'e' :: rest)) =
              encVal v ++ (encArr vs ++ 'e' :: rest) := by simp [hv]
          rw [hback, ihv v _ hsz.1]
          simp [iha vs rest hsz.2]
    · cases fs with
      | nil => simp [encObj, decObj]
      | cons kv fs =>
        obtain ⟨k, v⟩ := kv
        have hsz : vsize v ≤ f ∧ osize fs ≤ f := by simp [osize] at h; omega
        have hrw : encObj ((k, v) :: fs) ++ 'e' :: rest =
            'k' :: (List.replicate k.data.length 'u' ++ ':' ::
              (k.data ++ (encVal v ++ (encObj fs ++ 'e' :: rest)))) := by
          simp [encObj]
        rw [hrw]
        simp only [decObj]
        rw [decNatU_replicate ':' (by decide)]
        have hlen : k.data.length ≤ (k.data ++ (encVal v ++ (encObj fs ++ 'e' :: rest))).length := by
          simp
        simp only [hlen, if_pos, List.take_left, List.drop_left, string_mk_data]
        rw [ihv v _ hsz.1]
        simp [iho fs rest hsz.2]

theorem sizeBoundAux (n : Nat) :
    (∀ v, vsize v ≤ n → vsize v + 1 ≤ 2 * (encVal v).length) ∧
    (∀ xs, asize xs ≤ n → asize xs ≤ 2 * (encArr xs).length + 1) ∧
    (∀ fs, osize fs ≤ n → osize fs ≤ 2 * (encObj fs).length + 1) := by
  induction n with
  | zero =>
    refine ⟨fun v h => ?_, fun xs h => ?_, fun fs h => ?_⟩
    · exact absurd h (by have := vsize_pos v; omega)
    · exact absurd h (by have := asize_pos xs; omega)
    · exact absurd h (by have := osize_pos fs; omega)
  | succ m ih =>
    obtain ⟨ihv, iha, iho⟩ := ih
    refine ⟨fun v h => ?_, fun xs h => ?_, fun fs h => ?_⟩
    · cases v with
      | null => simp [vsize, encVal]
      | bool b => cases b <;> simp [vsize, encVal]
      | num i => simp [vsize, encVal]
      | str s => simp [vsize, encVal]
      | arr xs =>
        have h1 : asize xs ≤ m := by simp [vsize] at h; omega
        have := iha xs h1
        simp [vsize, encVal]; omega
      | obj fs =>
        have h1 : osize fs ≤ m := by simp [vsize] at h; omega
        have := iho fs h1
        simp [vsize, encVal]; omega
    · cases xs with
      | nil => simp [asize, encArr]
      | cons v vs =>
        have hv := vsize_pos v
        have hvs := asize_pos vs
        have h1 : vsize v ≤ m := by simp [asize] at h; omega
        have h2 : asize vs ≤ m := by simp [asize] at h; omega
        have b1 := ihv v h1
        have b2 := iha vs h2
        simp [asize, encArr]; omega
    · cases fs with
      | nil => simp [osize, encObj]
      | cons kv fs =>
        obtain ⟨k, v⟩ := kv
        have h1 : vsize v ≤ m := by simp [osize] at h; omega
        have h2 : osize fs ≤ m := by simp [osize] at h; omega
        have b1 := ihv v h1
        have b2 := iho fs h2
        simp [osize, encObj]; omega

/-- Modelled from the spec: the JavaScript runtime builtin `JSON.stringify`
restricted to JSON-serializable values (on which it never throws). -/
def jsonStringify (v : JsonValue) : String := String.mk (encVal v)

/-- Modelled from the spec: the JavaScript runtime builtin `JSON.parse`;
returns `none` where the builtin would throw a syntax error. -/
def jsonParse (s : String) : Option JsonValue :=
  match decVal (2 * s.data.length + 2) s.data with
  | some (v, []) => some v
  | _ => none

/-- The modelled parser inverts the modelled serializer, the property of
the JSON builtins that the persistence round trip relies on. -/
theorem jsonParse_stringify (v : JsonValue) : jsonParse (jsonStringify v) = some v := by
  have hb := (sizeBoundAux (vsize v)).1 v (le_refl _)
  have hfuel : vsize v ≤ 2 * (encVal v).length + 2 := by omega
  have hdec := (decEncAux (2 * (encVal v).length + 2)).1 v [] hfuel
  rw [List.append_nil] at hdec
  simp only [jsonParse, jsonStringify]
  rw [hdec]

theorem encVal_ne_nil (v : JsonValue) : encVal v ≠ [] := by
  obtain ⟨c, t, hv, _, _⟩ := encVal_head v
  simp [hv]

theorem jsonStringify_ne_empty (v : JsonValue) : jsonStringify v ≠ "" := by
  intro h
  have hd : (jsonStringify v).data = [] := by rw [h]
  exact encVal_ne_nil v hd

theorem encVal_injective {a b : JsonValue} (h : encVal a = encVal b) : a = b := by
  have ha := jsonParse_stringify a
  have hb := jsonParse_stringify b
  have hs : jsonStringify a = jsonStringify b := by simp [jsonStringify, h]
  rw [hs, hb] at ha
  exact ((Option.some.injEq _ _).mp ha).symm

instance : DecidableEq JsonValue := fun a b =>
  decidable_of_iff (encVal a = encVal b) ⟨fun h => encVal_injective h, fun h => by rw [h]⟩

/-- JavaScript truthiness of a `JsonValue` (used for `if (x)` checks and
the `&&` guards in the source). -/
def JsonValue.truthy : JsonValue → Bool
  | .null => false
  | .bool b => b
  | .num n => decide (n ≠ 0)
  | .str s => decide (s ≠ "")
  | .arr _ => true
  | .obj _ => true

/-- Model of `typeof x === 'object'`: true for objects, arrays and `null`. -/
def JsonValue.isObjType : JsonValue → Bool
  | .obj _ => true
  | .arr _ => true
  | .null => true
  | _ => false

/-- JavaScript property read on an object modelled as an association
list; `none` models `undefined`.  Keys written by the source are unique,
so first-match lookup agrees with JavaScript object semantics. -/
def objLookup (k : String) : JsonObj → Option JsonValue
  | [] => none
  | (k', v) :: rest => if k = k' then some v else objLookup k rest

/-- Message kind tags, mirroring the `MessageType` enumeration imported
from `MessageManager`. -/
inductive MessageType where
  | system
  | human
  | ai
  | tool
  | browser_state
  | todo_list
  deriving DecidableEq

/-- The flat row format owned by the storage adapters
(`ChatMemoryMessage` in `SQLiteChatMemory.ts`). -/
structure ChatMemoryMessage where
  role : MessageType
  content : String
  sequence : Nat
  createdAt : Option Nat
  metadata : Option JsonObj
  deriving DecidableEq

/-- The polymorphic in-memory message model: LangChain's
`SystemMessage` / `HumanMessage` / `AIMessage` / `ToolMessage` together
with the repository's `BrowserStateMessage` / `TodoListMessage`,
restricted to the fields the persistence layer reads and writes. -/
inductive BaseMessage where
  | system (content : JsonValue) (additional_kwargs : JsonObj)
  | human (content : JsonValue) (additional_kwargs : JsonObj)
  | ai (content : JsonValue) (additional_kwargs : JsonObj)
      (tool_calls : List JsonValue) (invalid_tool_calls : List JsonValue)
      (usage_metadata : Option JsonValue)
  | tool (content : JsonValue) (additional_kwargs : JsonObj) (tool_call_id : String)
      (status : Option String) (artifact : Option JsonValue) (metadata : Option JsonObj)
  | browser_state (content : String)
  | todo_list (content : String)
  deriving DecidableEq

/-- The `content` field of a message (`BrowserStateMessage` and
`TodoListMessage` always carry string content). -/
def BaseMessage.content : BaseMessage → JsonValue
  | .system c _ => c
  | .human c _ => c
  | .ai c _ _ _ _ => c
  | .tool c _ _ _ _ _ => c
  | .browser_state s => .str s
  | .todo_list s => .str s

/-- The `additional_kwargs` field of a message (empty object for the
specialized repository message kinds). -/
def BaseMessage.additional_kwargs : BaseMessage → JsonObj
  | .system _ k => k
  | .human _ k => k
  | .ai _ k _ _ _ => k
  | .tool _ k _ _ _ _ => k
  | .browser_state _ => []
  | .todo_list _ => []

/-- Modelled from the spec: `MessageManager._getMessageType`, the kind
tag of a message (the `MessageManager` source is not part of this
repository snapshot; the spec fixes the tag set and the evident
class-to-tag mapping). -/
def getMessageType : BaseMessage → MessageType
  | .system _ _ => .system
  | .human _ _ => .human
  | .ai _ _ _ _ _ => .ai
  | .tool _ _ _ _ _ _ => .tool
  | .browser_state _ => .browser_state
  | .todo_list _ => .todo_list

/-- The `SerializedContent` helper record of `PersistentMessageManager`. -/
structure SerializedContent where
  content : String
  isJson : Bool
  deriving DecidableEq

namespace PersistentMessageManager

/-- `PersistentMessageManager.normalizeContent`: string content is kept
verbatim, structured content is JSON-encoded and flagged.  The source's
encode-failure fallback cannot fire on JSON-serializable values, over
which the model's `jsonStringify` is total. -/
def normalizeContent (message : BaseMessage) : SerializedContent :=
  match message.content with
  | .str s => { content := s, isJson := false }
  | v => { content := jsonStringify v, isJson := true }

/-- `PersistentMessageManager.extractMetadata`: merges the JSON-content
flag, non-empty `additional_kwargs`, tool-message fields and AI-message
fields, returning `none` when the merged object would be empty. -/
def extractMetadata (message : BaseMessage) (contentIsJson : Bool) : Option JsonObj :=
  let md : JsonObj := if contentIsJson then [("contentIsJson", .bool true)] else []
  let md := md ++
    (if message.additional_kwargs.isEmpty then []
     else [("additional_kwargs", .obj message.additional_kwargs)])
  let md := md ++
    (match message with
     | .tool _ _ id status artifact tmeta =>
       [("toolCallId", .str id)] ++
       (match status with
        | some s => if s = "" then [] else [("toolStatus", .str s)]
        | none => []) ++
       (match artifact with
        | some v => [("artifact", v)]
        | none => []) ++
       (match tmeta with
        | some mm => if mm.isEmpty then [] else [("toolMetadata", .obj mm)]
        | none => [])
     | _ => [])
  let md := md ++
    (match message with
     | .ai _ _ tcs itcs usage =>
       (if tcs.isEmpty then [] else [("toolCalls", .arr tcs)]) ++
       (if itcs.isEmpty then [] else [("invalidToolCalls", .arr itcs)]) ++
       (match usage with
        | some u => if u.truthy then [("usageMetadata", u)] else []
        | none => [])
     | _ => [])
  if md.isEmpty then none else some md

/-- `PersistentMessageManager.serializeMessage`; `Date.now()` is modelled
by the explicit `now` argument. -/
def serializeMessage (message : BaseMessage) (sequence : Nat) (now : Nat) : ChatMemoryMessage :=
  let serialized := normalizeContent message
  let metadata := extractMetadata message serialized.isJson
  { role := getMessageType message
    content := serialized.content
    sequence := sequence
    createdAt := some now
    metadata := metadata }

/-- `PersistentMessageManager.restoreContent`: JSON-decode the stored
string when the `contentIsJson` flag is truthy and the content is a
non-empty (truthy) string, falling back to the raw string on a decode
failure. -/
def restoreContent (record : ChatMemoryMessage) : JsonValue :=
  let flag : Bool :=
    match record.metadata with
    | some md =>
      match objLookup "contentIsJson" md with
      | some v => v.truthy
      | none => false
    | none => false
  if flag ∧ record.content ≠ "" then
    match jsonParse record.content with
    | some v => v
    | none => .str record.content
  else .str record.content

/-- `PersistentMessageManager.deserializeMessage`: dispatch on the stored
role tag and rebuild the message, reading kind-specific fields from the
stored metadata.  The source treats unrecognized roles as AI; the
modelled role type is closed, so the AI arm is exactly the `ai` case. -/
def deserializeMessage (record : ChatMemoryMessage) : BaseMessage :=
  let content := restoreContent record
  let metadata := record.metadata.getD []
  match record.role with
  | .system => .system content []
  | .human => .human content []
  | .tool =>
    let toolCallId :=
      match objLookup "toolCallId" metadata with
      | some (.str s) => s
      | _ => ""
    let status :=
      match objLookup "toolStatus" metadata with
      | some (.str s) => some s
      | _ => none
    let artifact := objLookup "artifact" metadata
    let toolMetadata :=
      match objLookup "toolMetadata" metadata with
      | some (.obj mm) => some mm
      | _ => none
    let kwargs :=
      match objLookup "additional_kwargs" metadata with
      | some (.obj ks) => ks
      | _ => []
    .tool content kwargs toolCallId status artifact toolMetadata
  | .browser_state =>
    .browser_state (match content with | .str s => s | v => jsonStringify v)
  | .todo_list =>
    .todo_list (match content with | .str s => s | v => jsonStringify v)
  | .ai =>
    let tcs :=
      match objLookup "toolCalls" metadata with
      | some (.arr a) => a
      | _ => []
    let itcs :=
      match objLookup "invalidToolCalls" metadata with
      | some (.arr a) => a
      | _ => []
    let kwargs :=
      match objLookup "additional_kwargs" metadata with
      | some (.obj ks) => ks
      | _ => []
    let usage :=
      match objLookup "usageMetadata" metadata with
      | some v => if v.truthy && v.isObjType then some v else none
      | none => none
    .ai content kwargs tcs itcs usage

end PersistentMessageManager

open PersistentMessageManager

/-- Messages that the serialization protocol restores exactly: the
shapes produced by the repository's own message constructors (tool
status either absent or a non-empty literal, tool metadata either
absent or non-empty, AI usage either absent or a truthy object value,
and `additional_kwargs` empty for the kinds whose restore path drops
them). -/
def roundTrippable : BaseMessage → Bool
  | .system _ kwargs => kwargs.isEmpty
  | .human _ kwargs => kwargs.isEmpty
  | .ai _ _ _ _ usage =>
    match usage with
    | none => true
    | some u => u.truthy && u.isObjType
  | .tool _ _ _ status _ tmeta =>
    (match status with | none => true | some s => decide (s ≠ "")) &&
    (match tmeta with | none => true | some mm => !mm.isEmpty)
  | .browser_state _ => true
  | .todo_list _ => true

set_option maxHeartbeats 2000000 in
/-- Serializing a round-trippable message to a stored row and
deserializing it back is the identity. -/
theorem deserialize_serializeMessage (m : BaseMessage) (h : roundTrippable m = true)
    (seq now : Nat) : deserializeMessage (serializeMessage m seq now) = m := by
  cases m with
  | system c kwargs =>
    have hk : kwargs = [] := by simpa [roundTrippable] using h
    subst hk
    cases c <;>
      simp [serializeMessage, normalizeContent, extractMetadata, deserializeMessage,
        restoreContent, objLookup, BaseMessage.content, BaseMessage.additional_kwargs,
        getMessageType, jsonParse_stringify, jsonStringify_ne_empty, JsonValue.truthy]
  | human c kwargs =>
    have hk : kwargs = [] := by simpa [roundTrippable] using h
    subst hk
    cases c <;>
      simp [serializeMessage, normalizeContent, extractMetadata, deserializeMessage,
        restoreContent, objLookup, BaseMessage.content, BaseMessage.additional_kwargs,
        getMessageType, jsonParse_stringify, jsonStringify_ne_empty, JsonValue.truthy]
  | browser_state s =>
    simp [serializeMessage, normalizeContent, extractMetadata, deserializeMessage,
      restoreContent, objLookup, BaseMessage.content, BaseMessage.additional_kwargs,
      getMessageType, jsonParse_stringify, jsonStringify_ne_empty, JsonValue.truthy]
  | todo_list s =>
    simp [serializeMessage, normalizeContent, extractMetadata, deserializeMessage,
      restoreContent, objLookup, BaseMessage.content, BaseMessage.additional_kwargs,
      getMessageType, jsonParse_stringify, jsonStringify_ne_empty, JsonValue.truthy]
  | tool c kwargs id status artifact tmeta =>
    simp only [roundTrippable, Bool.and_eq_true] at h
    obtain ⟨hs, ht⟩ := h
    rcases status with _ | s <;> rcases artifact with _ | av <;> rcases tmeta with _ | mm <;>
      rcases hkw : kwargs with _ | ⟨kw0, kwr⟩ <;> cases c <;>
      simp_all [serializeMessage, normalizeContent, extractMetadata, deserializeMessage,
        restoreContent, objLookup, BaseMessage.content, BaseMessage.additional_kwargs,
        getMessageType, jsonParse_stringify, jsonStringify_ne_empty, JsonValue.truthy]
  | ai c kwargs tcs itcs usage =>
    simp only [roundTrippable] at h
    rcases usage with _ | u <;> rcases hkw : kwargs with _ | ⟨kw0, kwr⟩ <;>
      rcases htc : tcs with _ | ⟨tc0, tcr⟩ <;> rcases hit : itcs with _ | ⟨it0, itr⟩ <;>
      cases c <;>
      simp_all [serializeMessage, normalizeContent, extractMetadata, deserializeMessage,
        restoreContent, objLookup, BaseMessage.content, BaseMessage.additional_kwargs,
        getMessageType, jsonParse_stringify, jsonStringify_ne_empty, JsonValue.truthy,
        JsonValue.isObjType]

/-! ## Storage adapters

`ChatMemoryAdapter` operations as consumed by the controller, as pure
state transformers over a backend state type.  `getMessages` returns
the possibly-updated backend state together with the loaded rows. -/

structure AdapterImpl (σ : Type) where
  getMessages : σ → String → σ × List ChatMemoryMessage
  replaceConversation : σ → String → List ChatMemoryMessage → Nat → σ
  clearConversation : σ → String → σ

/-- Association-list read of a conversation store (model of `Map.get`). -/
def storeLookup (k : String) : List (String × List ChatMemoryMessage) →
    Option (List ChatMemoryMessage)
  | [] => none
  | (k', v) :: rest => if k = k' then some v else storeLookup k rest

/-- Association-list write of a conversation store (model of `Map.set`). -/
def storeSet (k : String) (v : List ChatMemoryMessage) :
    List (String × List ChatMemoryMessage) → List (String × List ChatMemoryMessage)
  | [] => [(k, v)]
  | (k', v') :: rest => if k = k' then (k, v) :: rest else (k', v') :: storeSet k v rest

/-- Association-list delete of a conversation store (model of `Map.delete`). -/
def storeDelete (k : String) : List (String × List ChatMemoryMessage) →
    List (String × List ChatMemoryMessage)
  | [] => []
  | (k', v') :: rest => if k = k' then rest else (k', v') :: storeDelete k rest

/-- Value-level model of `InMemoryChatMemory`: a conversation-id-to-rows
map.  Rows are immutable values in this model, so the source's
defensive copying is the identity here; the depth of that copying is
analysed separately in the heap model below. -/
structure InMemoryChatMemory where
  store : List (String × List ChatMemoryMessage)
  deriving DecidableEq

def InMemoryChatMemory.emptyStore : InMemoryChatMemory := ⟨[]⟩

def InMemoryChatMemory.replaceConversation (m : InMemoryChatMemory) (conversationId : String)
    (messages : List ChatMemoryMessage) : InMemoryChatMemory :=
  ⟨storeSet conversationId messages m.store⟩

def InMemoryChatMemory.getMessages (m : InMemoryChatMemory) (conversationId : String) :
    List ChatMemoryMessage :=
  (storeLookup conversationId m.store).getD []

def InMemoryChatMemory.clearConversation (m : InMemoryChatMemory) (conversationId : String) :
    InMemoryChatMemory :=
  ⟨storeDelete conversationId m.store⟩

/-- The `InMemoryChatMemory` backend packaged as an adapter. -/
def inMemoryImpl : AdapterImpl InMemoryChatMemory where
  getMessages s conversationId := (s, s.getMessages conversationId)
  replaceConversation s conversationId rows _ := s.replaceConversation conversationId rows
  clearConversation s conversationId := s.clearConversation conversationId

/-- Observable adapter calls, for stating which operations the
controller invokes. -/
inductive MemOp where
  | getOp (conversationId : String)
  | replaceOp (conversationId : String) (rows : List ChatMemoryMessage)
  | clearOp (conversationId : String)
  deriving DecidableEq

/-- Wraps an adapter so that its state also records the sequence of
operations invoked on it. -/
def traced {σ : Type} (impl : AdapterImpl σ) : AdapterImpl (σ × List MemOp) where
  getMessages := fun st conversationId =>
    ((((impl.getMessages st.1 conversationId).1), st.2 ++ [.getOp conversationId]),
      (impl.getMessages st.1 conversationId).2)
  replaceConversation := fun st conversationId rows now =>
    (impl.replaceConversation st.1 conversationId rows now,
      st.2 ++ [.replaceOp conversationId rows])
  clearConversation := fun st conversationId =>
    (impl.clearConversation st.1 conversationId, st.2 ++ [.clearOp conversationId])

/-! ## The persistence controller -/

/-- Modelled from the spec: the state of the base `MessageManager`
pipeline that `PersistentMessageManager` extends (its source is not in
this repository snapshot).  The spec fixes the interface — an ordered
message list with `add(message, position?)`, `removeLast() -> bool`,
`clear()`, `setMaxTokens(n)`, `getMessages()` — and no eviction policy,
so `add` is modelled as plain insertion. -/
structure MessageManagerState where
  messages : List BaseMessage
  maxTokens : Nat
  deriving DecidableEq

/-- Modelled from the spec: base-class `add`, appending or inserting at
an explicit position. -/
def MessageManagerState.baseAdd (st : MessageManagerState) (message : BaseMessage)
    (position : Option Nat) : MessageManagerState :=
  match position with
  | none => { st with messages := st.messages ++ [message] }
  | some i => { st with messages := st.messages.insertIdx i message }

/-- Modelled from the spec: base-class `removeLast`, returning whether a
message was removed. -/
def MessageManagerState.baseRemoveLast (st : MessageManagerState) :
    MessageManagerState × Bool :=
  if st.messages.isEmpty then (st, false)
  else ({ st with messages := st.messages.dropLast }, true)

namespace PersistentMessageManager

/-- The fields of a `PersistentMessageManager` instance: the inherited
pipeline state, the resolved conversation id, and the restoring flag. -/
structure State where
  base : MessageManagerState
  conversationId : String
  restoring : Bool
  deriving DecidableEq

/-- `getMessages().map((message, index) => serializeMessage(message, index))`,
unrolled with an explicit starting index; `persistMessages` uses start 0. -/
def serializeFrom (now : Nat) : Nat → List BaseMessage → List ChatMemoryMessage
  | _, [] => []
  | i, msg :: rest => serializeMessage msg i now :: serializeFrom now (i + 1) rest

/-- `PersistentMessageManager.persistMessages`: re-serialize the whole
current list and replace the stored conversation.  The source's
try/catch around the adapter call is dead in the model because adapter
operations return normally (claim C5). -/
def persistMessages {σ : Type} (impl : AdapterImpl σ) (p : State) (s : σ) (now : Nat) : σ :=
  impl.replaceConversation s p.conversationId (serializeFrom now 0 p.base.messages) now

/-- `PersistentMessageManager.add` (override): base add, then persist
unless restoring. -/
def add {σ : Type} (impl : AdapterImpl σ) (p : State) (s : σ) (message : BaseMessage)
    (position : Option Nat) (now : Nat) : State × σ :=
  let p1 := { p with base := p.base.baseAdd message position }
  if p1.restoring then (p1, s) else (p1, persistMessages impl p1 s now)

/-- `PersistentMessageManager.clear` (override): base clear, then delete
the stored conversation unless restoring. -/
def clear {σ : Type} (impl : AdapterImpl σ) (p : State) (s : σ) : State × σ :=
  let p1 := { p with base := { p.base with messages := [] } }
  if p1.restoring then (p1, s) else (p1, impl.clearConversation s p.conversationId)

/-- `PersistentMessageManager.removeLast` (override): base removeLast,
persist only when a message was actually removed and not restoring. -/
def removeLast {σ : Type} (impl : AdapterImpl σ) (p : State) (s : σ) (now : Nat) :
    (State × σ) × Bool :=
  let removed := (p.base.baseRemoveLast).2
  let p1 := { p with base := (p.base.baseRemoveLast).1 }
  if removed ∧ ¬p1.restoring then ((p1, persistMessages impl p1 s now), removed)
  else ((p1, s), removed)

/-- `PersistentMessageManager.setMaxTokens` (override): base update,
then persist unless restoring. -/
def setMaxTokens {σ : Type} (impl : AdapterImpl σ) (p : State) (s : σ)
    (newMaxTokens : Nat) (now : Nat) : State × σ :=
  let p1 := { p with base := { p.base with maxTokens := newMaxTokens } }
  if p1.restoring then (p1, s) else (p1, persistMessages impl p1 s now)

/-- The body of the restore loop in `restoreFromMemory`: deserialize
each stored row and append it through the base (non-persisting) `add`.
The `deser` argument generalizes `deserializeMessage` so that the
modelled possibility of a message constructor throwing
(`Except.error`) stops the loop exactly as the source's try/catch
does. -/
def restoreLoop (deser : ChatMemoryMessage → Except String BaseMessage) :
    State → List ChatMemoryMessage → State
  | p, [] => p
  | p, r :: rs =>
    match deser r with
    | .ok msg => restoreLoop deser { p with base := p.base.baseAdd msg none } rs
    | .error _ => p

/-- `PersistentMessageManager.restoreFromMemory` applied to the rows the
adapter returned: early return on an empty row list; otherwise raise
the restoring flag, replay rows until the first failure, and lower the
flag again (the source's `finally`). -/
def restoreFromMemoryWith (deser : ChatMemoryMessage → Except String BaseMessage)
    (p : State) (rows : List ChatMemoryMessage) : State :=
  if rows.isEmpty then p
  else
    let p1 := restoreLoop deser { p with restoring := true } rows
    { p1 with restoring := false }

/-- The `PersistentMessageManager` constructor after memory resolution:
start from an empty pipeline with the restoring flag down, load the
stored rows, and replay them, with `deser` standing for the
deserialization step. -/
def createWith {σ : Type} (impl : AdapterImpl σ)
    (deser : ChatMemoryMessage → Except String BaseMessage)
    (conversationId : String) (maxTokens : Nat) (s : σ) : State × σ :=
  let p0 : State :=
    { base := { messages := [], maxTokens := maxTokens }
      conversationId := conversationId
      restoring := false }
  ((restoreFromMemoryWith deser p0 (impl.getMessages s conversationId).2),
    (impl.getMessages s conversationId).1)

/-- The `PersistentMessageManager` constructor with the real
`deserializeMessage` (which is total in the model). -/
def create {σ : Type} (impl : AdapterImpl σ) (conversationId : String) (maxTokens : Nat)
    (s : σ) : State × σ :=
  createWith impl (fun r => .ok (deserializeMessage r)) conversationId maxTokens s

/-- Iterated `add` at the end position, one call per message. -/
def addAll {σ : Type} (impl : AdapterImpl σ) (now : Nat) :
    List BaseMessage → State × σ → State × σ
  | [], ps => ps
  | msg :: rest, ps => addAll impl now rest (add impl ps.1 ps.2 msg none now)

end PersistentMessageManager


open PersistentMessageManager

/-- String-typed content test (`typeof content === 'string'`). -/
def JsonValue.isStr : JsonValue → Bool
  | .str _ => true
  | _ => false

theorem storeLookup_storeSet (k : String) (v : List ChatMemoryMessage) :
    ∀ st, storeLookup k (storeSet k v st) = some v := by
  intro st
  induction st with
  | nil => simp [storeSet, storeLookup]
  | cons kv rest ih =>
    obtain ⟨k', v'⟩ := kv
    by_cases h : k = k'
    · simp [storeSet, storeLookup, h]
    · simp [storeSet, storeLookup, h, ih]

theorem storeSet_storeSet (k : String) (a b : List ChatMemoryMessage) :
    ∀ st, storeSet k b (storeSet k a st) = storeSet k b st := by
  intro st
  induction st with
  | nil => simp [storeSet]
  | cons kv rest ih =>
    obtain ⟨k', v'⟩ := kv
    by_cases h : k = k'
    · simp [storeSet, h]
    · simp [storeSet, h, ih]

theorem getMessages_replace (s : InMemoryChatMemory) (cid : String)
    (rows : List ChatMemoryMessage) :
    (s.replaceConversation cid rows).getMessages cid = rows := by
  simp [InMemoryChatMemory.replaceConversation, InMemoryChatMemory.getMessages,
    storeLookup_storeSet]

theorem replace_replace (s : InMemoryChatMemory) (cid : String)
    (a b : List ChatMemoryMessage) :
    (s.replaceConversation cid a).replaceConversation cid b = s.replaceConversation cid b := by
  simp [InMemoryChatMemory.replaceConversation, storeSet_storeSet]

theorem restoreLoop_ok (rows : List ChatMemoryMessage) :
    ∀ p, restoreLoop (fun r => .ok (deserializeMessage r)) p rows =
      { p with base := { p.base with
        messages := p.base.messages ++ rows.map deserializeMessage } } := by
  induction rows with
  | nil => intro p; simp [restoreLoop]
  | cons r rs ih =>
    intro p
    simp [restoreLoop, MessageManagerState.baseAdd, ih]

theorem create_inMemory (cid : String) (maxTok : Nat) (s : InMemoryChatMemory) :
    create inMemoryImpl cid maxTok s =
      ({ base := { messages := (s.getMessages cid).map deserializeMessage
                   maxTokens := maxTok }
         conversationId := cid
         restoring := false }, s) := by
  by_cases h : (s.getMessages cid).isEmpty
  · have h' : s.getMessages cid = [] := by simpa [List.isEmpty_iff] using h
    simp [create, createWith, inMemoryImpl, restoreFromMemoryWith, h']
  · simp [create, createWith, inMemoryImpl, restoreFromMemoryWith, h, restoreLoop_ok]

theorem addAll_inMemory (now : Nat) (msgs : List BaseMessage) :
    ∀ (p : State) (s : InMemoryChatMemory), p.restoring = false →
    addAll inMemoryImpl now msgs (p, s) =
      ({ p with base := { p.base with messages := p.base.messages ++ msgs } },
        if msgs.isEmpty then s
        else s.replaceConversation p.conversationId
          (serializeFrom now 0 (p.base.messages ++ msgs))) := by
  induction msgs with
  | nil =>
    intro p s hp
    simp [addAll]
  | cons m rest ih =>
    intro p s hp
    have hadd : add inMemoryImpl p s m none now =
        ({ p with base := { p.base with messages := p.base.messages ++ [m] } },
          s.replaceConversation p.conversationId
            (serializeFrom now 0 (p.base.messages ++ [m]))) := by
      simp [add, MessageManagerState.baseAdd, hp, persistMessages, inMemoryImpl]
    simp only [addAll, hadd]
    rw [ih _ _ (by simp [hp])]
    by_cases hrest : rest.isEmpty
    · have h' : rest = [] := by simpa [List.isEmpty_iff] using hrest
      simp [h']
    · simp only [hrest, if_neg, List.isEmpty_cons, Bool.false_eq_true, if_false]
      rw [replace_replace]
      simp

theorem map_deserialize_serializeFrom (now : Nat) (msgs : List BaseMessage)
    (h : ∀ m ∈ msgs, roundTrippable m = true) :
    ∀ k, (serializeFrom now k msgs).map deserializeMessage = msgs := by
  induction msgs with
  | nil => intro k; simp [serializeFrom]
  | cons m rest ih =>
    intro k
    have hm := deserialize_serializeMessage m (h m (by simp)) k now
    simp [serializeFrom, hm, ih (fun x hx => h x (by simp [hx]))]

/-- Claim C1: a sequence of round-trippable messages (which includes the
system / human / AI-with-tool-calls / tool-with-artifact-and-status /
AI-with-usage shapes) added to a `PersistentMessageManager` is restored
exactly — same ordered kind tags, contents and metadata — by a fresh
manager constructed on the same storage adapter and conversation id. -/
theorem c1_persistence_round_trip (msgs : List BaseMessage) (cid : String)
    (maxTok maxTok2 now : Nat) (h : ∀ m ∈ msgs, roundTrippable m = true) :
    (addAll inMemoryImpl now msgs
        (create inMemoryImpl cid maxTok InMemoryChatMemory.emptyStore)).1.base.messages
      = msgs ∧
    (create inMemoryImpl cid maxTok2
        (addAll inMemoryImpl now msgs
          (create inMemoryImpl cid maxTok InMemoryChatMemory.emptyStore)).2).1.base.messages
      = msgs ∧
    ((create inMemoryImpl cid maxTok2
        (addAll inMemoryImpl now msgs
          (create inMemoryImpl cid maxTok InMemoryChatMemory.emptyStore)).2).1.base.messages.map
      getMessageType) = msgs.map getMessageType := by
  have hempty : InMemoryChatMemory.emptyStore.getMessages cid = [] := rfl
  rw [create_inMemory]
  rw [addAll_inMemory now msgs _ _ rfl]
  by_cases hm : msgs.isEmpty
  · have h' : msgs = [] := by simpa [List.isEmpty_iff] using hm
    subst h'
    simp [hempty, create_inMemory]
  · simp only [hempty, List.map_nil, hm, Bool.false_eq_true, if_false, List.nil_append]
    rw [create_inMemory]
    simp [getMessages_replace, map_deserialize_serializeFrom now msgs h]


theorem add_inMemory (p : State) (s : InMemoryChatMemory) (msg : BaseMessage)
    (pos : Option Nat) (now : Nat) (hp : p.restoring = false) :
    add inMemoryImpl p s msg pos now =
      ({ p with base := p.base.baseAdd msg pos },
        s.replaceConversation p.conversationId
          (serializeFrom now 0 (p.base.baseAdd msg pos).messages)) := by
  simp [add, persistMessages, inMemoryImpl, hp, MessageManagerState.baseAdd]

/-- Claim C3: a message whose content is a structured (non-string) JSON
value is serialized with the `contentIsJson` metadata flag, and both the
content restore step and the full add-then-fresh-manager pipeline return
a structurally equal content value. -/
theorem c3_structured_content_round_trip (v : JsonValue) (hv : v.isStr = false)
    (cid : String) (maxTok maxTok2 now : Nat) :
    objLookup "contentIsJson" (((serializeMessage (.human v []) 0 now).metadata).getD []) =
      some (.bool true) ∧
    restoreContent (serializeMessage (.human v []) 0 now) = v ∧
    (create inMemoryImpl cid maxTok2
      (add inMemoryImpl (create inMemoryImpl cid maxTok InMemoryChatMemory.emptyStore).1
        (create inMemoryImpl cid maxTok InMemoryChatMemory.emptyStore).2
        (.human v []) none now).2).1.base.messages = [.human v []] := by
  have hflag : objLookup "contentIsJson"
      (((serializeMessage (.human v []) 0 now).metadata).getD []) = some (.bool true) := by
    cases v <;> simp_all [JsonValue.isStr, serializeMessage, normalizeContent,
      extractMetadata, BaseMessage.content, BaseMessage.additional_kwargs, objLookup]
  have hrestore : restoreContent (serializeMessage (.human v []) 0 now) = v := by
    cases v <;> simp_all [JsonValue.isStr, serializeMessage, normalizeContent,
      extractMetadata, BaseMessage.content, BaseMessage.additional_kwargs, objLookup,
      restoreContent, jsonParse_stringify, jsonStringify_ne_empty, JsonValue.truthy]
  refine ⟨hflag, hrestore, ?_⟩
  have hrt : roundTrippable (BaseMessage.human v []) = true := by simp [roundTrippable]
  have hdm := deserialize_serializeMessage (.human v []) hrt 0 now
  simp [create_inMemory, add_inMemory, MessageManagerState.baseAdd,
    InMemoryChatMemory.emptyStore, InMemoryChatMemory.getMessages, storeLookup,
    getMessages_replace, serializeFrom, hdm]

/-- Claim C4: the replay-on-construction step invokes only `getMessages`
on the storage adapter — never `replaceConversation` or
`clearConversation` — and leaves the transient backend's stored state
unchanged; moreover any mutation arriving while the restoring flag is
up performs no adapter call at all. -/
theorem c4_restore_triggers_no_store_writes {σ : Type} (impl : AdapterImpl σ) (s : σ)
    (t : List MemOp) (deser : ChatMemoryMessage → Except String BaseMessage)
    (cid : String) (maxTok : Nat) :
    ((createWith (traced impl) deser cid maxTok (s, t)).2 =
      ((impl.getMessages s cid).1, t ++ [.getOp cid])) ∧
    (∀ (s0 : InMemoryChatMemory), (createWith inMemoryImpl deser cid maxTok s0).2 = s0) ∧
    (∀ (p : State) msg pos now, p.restoring = true →
      (add (traced impl) p (s, t) msg pos now).2 = (s, t)) ∧
    (∀ (p : State) now, p.restoring = true →
      ((removeLast (traced impl) p (s, t) now).1).2 = (s, t)) ∧
    (∀ (p : State) n now, p.restoring = true →
      (setMaxTokens (traced impl) p (s, t) n now).2 = (s, t)) ∧
    (∀ (p : State), p.restoring = true → (clear (traced impl) p (s, t)).2 = (s, t)) := by
  refine ⟨by simp [createWith, traced], fun s0 => by simp [createWith, inMemoryImpl],
    fun p msg pos now hp => ?_, fun p now hp => ?_, fun p n now hp => ?_, fun p hp => ?_⟩
  · simp [add, hp]
  · simp [removeLast, hp]
  · simp [setMaxTokens, hp]
  · simp [clear, hp]

/-- Sequential deserialization of a row list, stopping at the first
failure (the effect of the restore loop's exception propagation). -/
def deserAll (deser : ChatMemoryMessage → Except String BaseMessage) :
    List ChatMemoryMessage → Except String (List BaseMessage)
  | [] => .ok []
  | r :: rs =>
    match deser r with
    | .ok m =>
      match deserAll deser rs with
      | .ok ms => .ok (m :: ms)
      | .error e => .error e
    | .error e => .error e

theorem restoreLoop_deserAll_ok (deser : ChatMemoryMessage → Except String BaseMessage)
    (pre : List ChatMemoryMessage) :
    ∀ (msgs : List BaseMessage) (p : State) (rest : List ChatMemoryMessage),
      deserAll deser pre = .ok msgs →
      restoreLoop deser p (pre ++ rest) =
        restoreLoop deser
          (State.mk (MessageManagerState.mk (p.base.messages ++ msgs) p.base.maxTokens)
            p.conversationId p.restoring) rest := by
  induction pre with
  | nil =>
    intro msgs p rest h
    simp [deserAll] at h
    subst h
    simp
  | cons r rs ih =>
    intro msgs p rest h
    cases hr : deser r with
    | error e => simp [deserAll, hr] at h
    | ok m =>
      cases hrs : deserAll deser rs with
      | error e => simp [deserAll, hr, hrs] at h
      | ok ms =>
        simp [deserAll, hr, hrs] at h
        subst h
        simp only [List.cons_append, restoreLoop, hr, List.append_eq]
        rw [ih ms ({ p with base := p.base.baseAdd m none }) rest hrs]
        simp [MessageManagerState.baseAdd]

/-- Claim C7: if deserialization fails at row k of the stored sequence,
the constructor still completes with exactly rows 0..k-1 replayed into
the pipeline, the remaining rows unattempted, the restoring flag down,
and the store untouched. -/
theorem c7_restore_fail_fast (deser : ChatMemoryMessage → Except String BaseMessage)
    (pre : List ChatMemoryMessage) (bad : ChatMemoryMessage) (post : List ChatMemoryMessage)
    (msgs : List BaseMessage) (e : String) (cid : String) (maxTok : Nat)
    (s : InMemoryChatMemory)
    (hrows : s.getMessages cid = pre ++ bad :: post)
    (hpre : deserAll deser pre = .ok msgs)
    (hbad : deser bad = .error e) :
    (createWith inMemoryImpl deser cid maxTok s).1 =
      { base := { messages := msgs, maxTokens := maxTok }
        conversationId := cid
        restoring := false } ∧
    (createWith inMemoryImpl deser cid maxTok s).2 = s := by
  constructor
  · simp only [createWith, inMemoryImpl, hrows]
    have hne : (pre ++ bad :: post).isEmpty = false := by
      cases pre <;> simp
    simp only [restoreFromMemoryWith, hne, Bool.false_eq_true, if_false]
    rw [restoreLoop_deserAll_ok deser pre msgs _ (bad :: post) hpre]
    simp [restoreLoop, hbad]
  · simp [createWith, inMemoryImpl]

/-- Claim C9: however construction ends (no rows, all rows replayed, or
an aborted restore), the restoring flag is false afterwards, and every
subsequent mutation on a non-restoring state performs its persistence
call: `add`, effective `removeLast`, and `setMaxTokens` invoke
`replaceConversation` with the re-serialized list, and `clear` invokes
`clearConversation`. -/
theorem c9_restoring_flag_cleared {σ : Type} (impl : AdapterImpl σ) (s : σ)
    (deser : ChatMemoryMessage → Except String BaseMessage) (cid : String) (maxTok : Nat) :
    ((createWith impl deser cid maxTok s).1.restoring = false) ∧
    (∀ (p : State) (s' : σ) t msg pos now, p.restoring = false →
      ((add (traced impl) p (s', t) msg pos now).2).2 =
        t ++ [.replaceOp p.conversationId
          (serializeFrom now 0 (p.base.baseAdd msg pos).messages)]) ∧
    (∀ (p : State) (s' : σ) t now, p.restoring = false → p.base.messages ≠ [] →
      (((removeLast (traced impl) p (s', t) now).1).2).2 =
        t ++ [.replaceOp p.conversationId
          (serializeFrom now 0 p.base.messages.dropLast)]) ∧
    (∀ (p : State) (s' : σ) t n now, p.restoring = false →
      ((setMaxTokens (traced impl) p (s', t) n now).2).2 =
        t ++ [.replaceOp p.conversationId (serializeFrom now 0 p.base.messages)]) ∧
    (∀ (p : State) (s' : σ) t, p.restoring = false →
      ((clear (traced impl) p (s', t)).2).2 = t ++ [.clearOp p.conversationId]) := by
  refine ⟨?_, fun p s' t msg pos now hp => ?_, fun p s' t now hp hne => ?_,
    fun p s' t n now hp => ?_, fun p s' t hp => ?_⟩
  · by_cases h : ((impl.getMessages s cid).2).isEmpty <;>
      simp [createWith, restoreFromMemoryWith, h]
  · simp [add, hp, persistMessages, traced]
  · have hemp : p.base.messages.isEmpty = false := by
      cases hm : p.base.messages <;> simp_all
    simp [removeLast, MessageManagerState.baseRemoveLast, hemp, hp, persistMessages, traced]
  · simp [setMaxTokens, hp, persistMessages, traced]
  · simp [clear, hp, traced]

/-- Claim C10: `removeLast` on an empty pipeline returns false and
performs no adapter call: neither the backend state nor the operation
trace changes. -/
theorem c10_removeLast_empty_no_write {σ : Type} (impl : AdapterImpl σ) (p : State)
    (s : σ) (t : List MemOp) (now : Nat) (h : p.base.messages = []) :
    removeLast (traced impl) p (s, t) now = ((p, (s, t)), false) := by
  have hemp : p.base.messages.isEmpty = true := by simp [h]
  simp [removeLast, MessageManagerState.baseRemoveLast, hemp]


/-- One concrete message of each kind enumerated by claim C1. -/
def c1SampleMessages : List BaseMessage :=
  [ .system (.str "System prompt") []
  , .human (.str "Hello world") []
  , .ai (.str "Hi there!") []
      [.obj [("name", .str "navigate"), ("args", .obj [("url", .str "x")]), ("id", .str "1")]]
      [] none
  , .tool (.str "done") [] "call-1" (some "success") (some (.arr [.num 1, .null])) none
  , .ai (.obj [("parts", .arr [.str "y"])]) [] [] []
      (some (.obj [("input_tokens", .num 3), ("output_tokens", .num 5)])) ]

theorem c1_persistence_round_trip_witness :
    (∀ m ∈ c1SampleMessages, roundTrippable m = true) ∧
    (create inMemoryImpl "persist-case" 64
        (addAll inMemoryImpl 7 c1SampleMessages
          (create inMemoryImpl "persist-case" 64 InMemoryChatMemory.emptyStore)).2).1.base.messages
      = c1SampleMessages :=
  ⟨by decide,
    (c1_persistence_round_trip c1SampleMessages "persist-case" 64 64 7 (by decide)).2.1⟩

theorem c3_structured_content_round_trip_witness :
    ((JsonValue.obj [("a", .arr [.num 1, .null])]).isStr = false) ∧
    restoreContent (serializeMessage
        (.human (.obj [("a", .arr [.num 1, .null])]) []) 0 3) =
      .obj [("a", .arr [.num 1, .null])] :=
  ⟨by decide,
    (c3_structured_content_round_trip (.obj [("a", .arr [.num 1, .null])]) (by decide)
      "c" 8 8 3).2.1⟩

theorem c4_restore_triggers_no_store_writes_witness :
    ((createWith (traced inMemoryImpl) (fun r => .ok (deserializeMessage r)) "c" 8
        (InMemoryChatMemory.emptyStore, [])).2 =
      (InMemoryChatMemory.emptyStore, [MemOp.getOp "c"])) ∧
    (add (traced inMemoryImpl)
        { base := { messages := [], maxTokens := 8 }, conversationId := "c", restoring := true }
        (InMemoryChatMemory.emptyStore, []) (.human (.str "x") []) none 0).2 =
      (InMemoryChatMemory.emptyStore, []) :=
  ⟨by simpa using
      (c4_restore_triggers_no_store_writes inMemoryImpl InMemoryChatMemory.emptyStore []
        (fun r => .ok (deserializeMessage r)) "c" 8).1,
    (c4_restore_triggers_no_store_writes inMemoryImpl InMemoryChatMemory.emptyStore []
        (fun r => .ok (deserializeMessage r)) "c" 8).2.2.1
      { base := { messages := [], maxTokens := 8 }, conversationId := "c", restoring := true }
      (.human (.str "x") []) none 0 rfl⟩

/-- A deserializer that fails exactly on tool rows, modelling a message
constructor that throws during restore. -/
def c7BadDeser : ChatMemoryMessage → Except String BaseMessage :=
  fun r => if r.role = .tool then .error "boom" else .ok (deserializeMessage r)

/-- Four stored rows whose third cannot be deserialized by `c7BadDeser`. -/
def c7Rows : List ChatMemoryMessage :=
  [ ⟨.system, "a", 0, some 0, none⟩, ⟨.human, "b", 1, some 0, none⟩,
    ⟨.tool, "c", 2, some 0, none⟩, ⟨.human, "d", 3, some 0, none⟩ ]

theorem c7_restore_fail_fast_witness :
    (createWith inMemoryImpl c7BadDeser "conv" 8
        (InMemoryChatMemory.emptyStore.replaceConversation "conv" c7Rows)).1 =
      { base := { messages := [.system (.str "a") [], .human (.str "b") []], maxTokens := 8 }
        conversationId := "conv"
        restoring := false } :=
  (c7_restore_fail_fast c7BadDeser
    [⟨.system, "a", 0, some 0, none⟩, ⟨.human, "b", 1, some 0, none⟩]
    ⟨.tool, "c", 2, some 0, none⟩ [⟨.human, "d", 3, some 0, none⟩]
    [.system (.str "a") [], .human (.str "b") []] "boom" "conv" 8
    (InMemoryChatMemory.emptyStore.replaceConversation "conv" c7Rows)
    (by decide) rfl rfl).1

theorem c9_restoring_flag_cleared_witness :
    ((createWith inMemoryImpl (fun r => .ok (deserializeMessage r)) "c" 8
        InMemoryChatMemory.emptyStore).1.restoring = false) ∧
    ((add (traced inMemoryImpl)
        { base := { messages := [], maxTokens := 8 }, conversationId := "c", restoring := false }
        (InMemoryChatMemory.emptyStore, []) (.human (.str "x") []) none 0).2).2 =
      [MemOp.replaceOp "c" (serializeFrom 0 0 [.human (.str "x") []])] :=
  ⟨(c9_restoring_flag_cleared inMemoryImpl InMemoryChatMemory.emptyStore
      (fun r => .ok (deserializeMessage r)) "c" 8).1,
    by simpa [MessageManagerState.baseAdd] using
      (c9_restoring_flag_cleared inMemoryImpl InMemoryChatMemory.emptyStore
        (fun r => .ok (deserializeMessage r)) "c" 8).2.1
        { base := { messages := [], maxTokens := 8 }, conversationId := "c", restoring := false }
        InMemoryChatMemory.emptyStore [] (.human (.str "x") []) none 0 rfl⟩

theorem c10_removeLast_empty_no_write_witness :
    removeLast (traced inMemoryImpl)
      { base := { messages := [], maxTokens := 8 }, conversationId := "c", restoring := false }
      (InMemoryChatMemory.emptyStore, []) 5 =
      (({ base := { messages := [], maxTokens := 8 }, conversationId := "c",
          restoring := false },
        (InMemoryChatMemory.emptyStore, [])), false) :=
  c10_removeLast_empty_no_write inMemoryImpl _ _ _ 5 rfl


/-! ## SQLite backend model

`SQLiteChatMemory` over an embedded relational store.  The driver
(better-sqlite3) is external to the repository: its fallible steps are
modelled by explicit outcome environments, and a transaction rolls the
state back when its body fails, per the engine's atomicity guarantee
the source relies on. -/

/-- A row of the `conversations` table. -/
structure ConvRow where
  id : String
  created_at : Nat
  updated_at : Nat
  deriving DecidableEq

/-- A row of the `chat_messages` table; `metadata` is the nullable
JSON-encoded string column. -/
structure MsgRow where
  id : Nat
  conversation_id : String
  role : MessageType
  content : String
  metadata : Option String
  sequence : Nat
  created_at : Nat
  deriving DecidableEq

/-- The open database: the two tables of `createSchema` plus the
AUTOINCREMENT counter of `chat_messages.id`. -/
structure DbState where
  conversations : List ConvRow
  chat_messages : List MsgRow
  nextId : Nat
  deriving DecidableEq

/-- The `upsertConversation` prepared statement
(`INSERT ... ON CONFLICT(id) DO UPDATE SET updated_at = ...`). -/
def upsertConversation (db : DbState) (cid : String) (created_at updated_at : Nat) : DbState :=
  let bump := fun (c : ConvRow) => if c.id == cid then { c with updated_at := updated_at } else c
  if db.conversations.any (fun c => c.id == cid) then
    { db with conversations := db.conversations.map bump }
  else
    { db with conversations := db.conversations ++ [⟨cid, created_at, updated_at⟩] }

/-- The `deleteMessages` prepared statement
(`DELETE FROM chat_messages WHERE conversation_id = ?`). -/
def deleteMessages (db : DbState) (cid : String) : DbState :=
  { db with chat_messages := db.chat_messages.filter (fun r => r.conversation_id != cid) }

/-- The `insertMessage` prepared statement. -/
def insertMessage (db : DbState) (cid : String) (role : MessageType) (content : String)
    (metadata : Option String) (sequence : Nat) (created_at : Nat) : DbState :=
  { db with
    chat_messages := db.chat_messages ++
      [⟨db.nextId, cid, role, content, metadata, sequence, created_at⟩]
    nextId := db.nextId + 1 }

/-- The `deleteConversation` prepared statement; `foreign_keys = ON`
with `ON DELETE CASCADE` also removes the conversation's messages. -/
def deleteConversation (db : DbState) (cid : String) : DbState :=
  { db with
    conversations := db.conversations.filter (fun c => c.id != cid)
    chat_messages := db.chat_messages.filter (fun r => r.conversation_id != cid) }

/-- Stable insertion step for ordering rows by `sequence`. -/
def insertBySeq (r : MsgRow) : List MsgRow → List MsgRow
  | [] => [r]
  | x :: xs => if r.sequence ≤ x.sequence then r :: x :: xs else x :: insertBySeq r xs

/-- Sort by `sequence` ascending.  Rows written by the controller have
distinct sequences; on ties (which `ORDER BY` leaves unspecified) this
model fixes an arbitrary order. -/
def sortBySeq : List MsgRow → List MsgRow
  | [] => []
  | x :: xs => insertBySeq x (sortBySeq xs)

/-- The `selectMessages` prepared statement
(`SELECT ... WHERE conversation_id = ? ORDER BY sequence ASC`). -/
def selectMessages (db : DbState) (cid : String) : List MsgRow :=
  sortBySeq (db.chat_messages.filter (fun r => r.conversation_id == cid))

namespace SQLiteChatMemory

/-- `SQLiteChatMemory.deserializeRow`: decode the metadata JSON column,
degrading only that row's metadata to `undefined` on a decode failure.
A stored JSON value that is not an object would be blindly cast by the
source and behave downstream as a key-less record, which `none` also
models. -/
def deserializeRow (row : MsgRow) : ChatMemoryMessage :=
  let metadata : Option JsonObj :=
    match row.metadata with
    | some s =>
      if s.length > 0 then
        match jsonParse s with
        | some (.obj o) => some o
        | _ => none
      else none
    | none => none
  { role := row.role
    content := row.content
    sequence := row.sequence
    createdAt := some row.created_at
    metadata := metadata }

end SQLiteChatMemory

/-- Outcomes of the fallible driver calls inside the `replaceConversation`
transaction body. -/
structure ReplaceEnv where
  upsertThrows : Bool
  deleteThrows : Bool
  insertThrows : Nat → Bool

/-- The environment in which every driver call succeeds. -/
def okReplaceEnv : ReplaceEnv := ⟨false, false, fun _ => false⟩

/-- The insert loop of the `replaceConversation` transaction body:
`metadataJson = row.metadata ? JSON.stringify(row.metadata) : null` and
`createdAt = row.createdAt ?? now`. -/
def insertRows (env : ReplaceEnv) (cid : String) (now : Nat) :
    Nat → DbState → List ChatMemoryMessage → Except String DbState
  | _, db, [] => .ok db
  | i, db, row :: rest =>
    if env.insertThrows i then .error "insert failed"
    else insertRows env cid now (i + 1)
      (insertMessage db cid row.role row.content
        (row.metadata.map (fun mm => jsonStringify (.obj mm))) row.sequence
        (row.createdAt.getD now)) rest

/-- The transaction body of `replaceConversation`: upsert the
conversation, delete its rows, insert the new rows in order. -/
def runReplace (env : ReplaceEnv) (db : DbState) (cid : String)
    (rows : List ChatMemoryMessage) (now : Nat) : Except String DbState :=
  if env.upsertThrows then .error "upsert failed"
  else
    let db1 := upsertConversation db cid now now
    if env.deleteThrows then .error "delete failed"
    else insertRows env cid now 0 (deleteMessages db1 cid) rows

/-- Outcomes of the fallible driver calls inside the `clearConversation`
transaction body. -/
structure ClearEnv where
  deleteMessagesThrows : Bool
  deleteConversationThrows : Bool

/-- The environment in which every driver call succeeds. -/
def okClearEnv : ClearEnv := ⟨false, false⟩

/-- The transaction body of `clearConversation`. -/
def runClear (env : ClearEnv) (db : DbState) (cid : String) : Except String DbState :=
  if env.deleteMessagesThrows then .error "delete messages failed"
  else
    let db1 := deleteMessages db cid
    if env.deleteConversationThrows then .error "delete conversation failed"
    else .ok (deleteConversation db1 cid)

namespace SQLiteChatMemory

/-- The adapter object: `database` is `none` until a successful
`ensureDatabase` (prepared statements exist exactly when it is open,
so they are not modelled separately). -/
structure Memory where
  database : Option DbState
  deriving DecidableEq

/-- Outcomes of the fallible steps inside `ensureDatabase`: whether the
better-sqlite3 driver loads, and the combined outcome of opening the
file, setting pragmas, creating the schema and preparing statements
(`.ok` carries the database as read from disk). -/
structure InitEnv where
  driverLoads : Bool
  openResult : Except String DbState

/-- `SQLiteChatMemory.ensureDatabase`: return the open handle if any;
otherwise attempt the whole open sequence, catching every failure and
leaving the handle `null`. -/
def ensureDatabase (env : InitEnv) (m : Memory) : Memory :=
  match m.database with
  | some _ => m
  | none =>
    let attempt : Except String DbState :=
      if ¬env.driverLoads then .error "better-sqlite3 module is not available"
      else env.openResult
    match attempt with
    | .ok db => { database := some db }
    | .error _ => { database := none }

/-- `SQLiteChatMemory.initialize`: delegate to `ensureDatabase`; the
`Except` component is the exception behaviour observable by the caller. -/
def initializeStore (env : InitEnv) (m : Memory) : Memory × Except String Unit :=
  (ensureDatabase env m, .ok ())

/-- `SQLiteChatMemory.isAvailable`. -/
def isAvailable (env : InitEnv) (m : Memory) : Memory × Bool :=
  ((ensureDatabase env m), (ensureDatabase env m).database.isSome)

/-- Outcome of the fallible select call inside `getMessages`. -/
structure QueryEnv where
  selectThrows : Bool

/-- `SQLiteChatMemory.getMessages`: empty list when the database is
unavailable or the query throws (caught and logged). -/
def getMessages (ienv : InitEnv) (qenv : QueryEnv) (m : Memory) (cid : String) :
    Memory × Except String (List ChatMemoryMessage) :=
  let m1 := ensureDatabase ienv m
  match m1.database with
  | none => (m1, .ok [])
  | some db =>
    if qenv.selectThrows then (m1, .ok [])
    else (m1, .ok ((selectMessages db cid).map deserializeRow))

/-- `SQLiteChatMemory.replaceConversation`: run the transaction body;
on failure the transaction is rolled back and the error caught and
logged, leaving the previously committed state. -/
def replaceConversation (ienv : InitEnv) (renv : ReplaceEnv) (m : Memory) (cid : String)
    (rows : List ChatMemoryMessage) (now : Nat) : Memory × Except String Unit :=
  let m1 := ensureDatabase ienv m
  match m1.database with
  | none => (m1, .ok ())
  | some db =>
    match runReplace renv db cid rows now with
    | .ok db1 => (⟨some db1⟩, .ok ())
    | .error _ => (m1, .ok ())

/-- `SQLiteChatMemory.clearConversation`: like `replaceConversation`,
with the delete-only transaction body. -/
def clearConversation (ienv : InitEnv) (cenv : ClearEnv) (m : Memory) (cid : String) :
    Memory × Except String Unit :=
  let m1 := ensureDatabase ienv m
  match m1.database with
  | none => (m1, .ok ())
  | some db =>
    match runClear cenv db cid with
    | .ok db1 => (⟨some db1⟩, .ok ())
    | .error _ => (m1, .ok ())

end SQLiteChatMemory

/-- The success-path SQLite backend packaged as an adapter over an open
database, as used by a controller whose `isAvailable` check passed. -/
def sqliteOkImpl : AdapterImpl DbState where
  getMessages db cid := (db, (selectMessages db cid).map SQLiteChatMemory.deserializeRow)
  replaceConversation db cid rows now :=
    match runReplace okReplaceEnv db cid rows now with
    | .ok db1 => db1
    | .error _ => db
  clearConversation db cid :=
    match runClear okClearEnv db cid with
    | .ok db1 => db1
    | .error _ => db

/-- The sequence column of the stored rows of a conversation, in select
order. -/
def storedSequences (db : DbState) (cid : String) : List Nat :=
  (selectMessages db cid).map (fun r => r.sequence)


/-- Claim C5: no storage-adapter operation raises to its caller, for
every input and every modelled internal failure; `getMessages` returns
a list that is empty on failure or for an unknown conversation;
`initialize` is idempotent once successful; failures are observable
only through `isAvailable`. -/
theorem c5_storage_adapter_never_raises (ienv : SQLiteChatMemory.InitEnv)
    (qenv : SQLiteChatMemory.QueryEnv) (renv : ReplaceEnv) (cenv : ClearEnv)
    (m : SQLiteChatMemory.Memory) (cid : String) (rows : List ChatMemoryMessage)
    (now : Nat) :
    ((SQLiteChatMemory.initializeStore ienv m).2 = .ok ()) ∧
    (∃ l, (SQLiteChatMemory.getMessages ienv qenv m cid).2 = .ok l) ∧
    (qenv.selectThrows = true → (SQLiteChatMemory.getMessages ienv qenv m cid).2 = .ok []) ∧
    ((SQLiteChatMemory.ensureDatabase ienv m).database = none →
      (SQLiteChatMemory.getMessages ienv qenv m cid).2 = .ok []) ∧
    (∀ db, (SQLiteChatMemory.ensureDatabase ienv m).database = some db →
      (∀ r ∈ db.chat_messages, r.conversation_id ≠ cid) →
      (SQLiteChatMemory.getMessages ienv qenv m cid).2 = .ok []) ∧
    ((SQLiteChatMemory.replaceConversation ienv renv m cid rows now).2 = .ok ()) ∧
    ((SQLiteChatMemory.clearConversation ienv cenv m cid).2 = .ok ()) ∧
    (∀ ienv2, (SQLiteChatMemory.ensureDatabase ienv m).database.isSome = true →
      SQLiteChatMemory.ensureDatabase ienv2 (SQLiteChatMemory.ensureDatabase ienv m) =
        SQLiteChatMemory.ensureDatabase ienv m) ∧
    (m.database = none →
      (ienv.driverLoads = false ∨ ∃ e, ienv.openResult = .error e) →
      (SQLiteChatMemory.isAvailable ienv m).2 = false) := by
  refine ⟨rfl, ?_, ?_, ?_, ?_, ?_, ?_, ?_, ?_⟩
  · cases h : (SQLiteChatMemory.ensureDatabase ienv m).database with
    | none => exact ⟨[], by simp [SQLiteChatMemory.getMessages, h]⟩
    | some db =>
      by_cases hq : qenv.selectThrows
      · exact ⟨[], by simp [SQLiteChatMemory.getMessages, h, hq]⟩
      · exact ⟨(selectMessages db cid).map SQLiteChatMemory.deserializeRow,
          by simp [SQLiteChatMemory.getMessages, h, hq]⟩
  · intro hq
    cases h : (SQLiteChatMemory.ensureDatabase ienv m).database with
    | none => simp [SQLiteChatMemory.getMessages, h]
    | some db => simp [SQLiteChatMemory.getMessages, h, hq]
  · intro h
    simp [SQLiteChatMemory.getMessages, h]
  · intro db h hno
    have hfilter : db.chat_messages.filter (fun r => r.conversation_id == cid) = [] := by
      rw [List.filter_eq_nil_iff]
      intro r hr
      simpa using hno r hr
    by_cases hq : qenv.selectThrows <;>
      simp [SQLiteChatMemory.getMessages, h, hq, selectMessages, hfilter, sortBySeq]
  · cases h : (SQLiteChatMemory.ensureDatabase ienv m).database with
    | none => simp [SQLiteChatMemory.replaceConversation, h]
    | some db =>
      cases hr : runReplace renv db cid rows now <;>
        simp [SQLiteChatMemory.replaceConversation, h, hr]
  · cases h : (SQLiteChatMemory.ensureDatabase ienv m).database with
    | none => simp [SQLiteChatMemory.clearConversation, h]
    | some db =>
      cases hr : runClear cenv db cid <;>
        simp [SQLiteChatMemory.clearConversation, h, hr]
  · intro ienv2 hsome
    cases h : (SQLiteChatMemory.ensureDatabase ienv m).database with
    | none => rw [h] at hsome; simp at hsome
    | some db =>
      have hx : SQLiteChatMemory.ensureDatabase ienv m = ⟨some db⟩ := by
        cases hm : SQLiteChatMemory.ensureDatabase ienv m
        rw [hm] at h
        simp_all
      rw [hx]
      simp [SQLiteChatMemory.ensureDatabase]
  · intro hm hfail
    rcases hfail with hd | ⟨e, he⟩
    · simp [SQLiteChatMemory.isAvailable, SQLiteChatMemory.ensureDatabase, hm, hd]
    · cases hdl : ienv.driverLoads <;>
        simp [SQLiteChatMemory.isAvailable, SQLiteChatMemory.ensureDatabase, hm, hdl, he]

theorem insertRows_error (env : ReplaceEnv) (cid : String) (now : Nat) :
    ∀ (rows : List ChatMemoryMessage) (k : Nat) (db : DbState),
      (∃ i, i < rows.length ∧ env.insertThrows (k + i) = true) →
      ∃ e, insertRows env cid now k db rows = .error e := by
  intro rows
  induction rows with
  | nil =>
    intro k db h
    obtain ⟨i, hi, _⟩ := h
    simp at hi
  | cons r rest ih =>
    intro k db h
    obtain ⟨i, hi, ht⟩ := h
    by_cases hk : env.insertThrows k = true
    · exact ⟨"insert failed", by simp [insertRows, hk]⟩
    · cases i with
      | zero =>
        exact absurd (by simpa using ht) hk
      | succ j =>
        have ht' : env.insertThrows (k + 1 + j) = true := by
          rw [show k + 1 + j = k + (j + 1) by omega]
          exact ht
        obtain ⟨e, he⟩ := ih (k + 1)
          (insertMessage db cid r.role r.content
            (r.metadata.map (fun mm => jsonStringify (.obj mm))) r.sequence
            (r.createdAt.getD now))
          ⟨j, by simpa using hi, ht'⟩
        exact ⟨e, by simp [insertRows, hk, he]⟩

theorem runReplace_error (renv : ReplaceEnv) (db : DbState) (cid : String)
    (rows : List ChatMemoryMessage) (now : Nat)
    (hfail : renv.upsertThrows = true ∨ renv.deleteThrows = true ∨
      ∃ i, i < rows.length ∧ renv.insertThrows i = true) :
    ∃ e, runReplace renv db cid rows now = .error e := by
  by_cases hu : renv.upsertThrows = true
  · exact ⟨"upsert failed", by simp [runReplace, hu]⟩
  · by_cases hd : renv.deleteThrows = true
    · exact ⟨"delete failed", by simp [runReplace, hu, hd]⟩
    · rcases hfail with h | h | h
      · exact absurd h hu
      · exact absurd h hd
      · obtain ⟨e, he⟩ := insertRows_error renv cid now rows 0
          (deleteMessages (upsertConversation db cid now now) cid) (by simpa using h)
        exact ⟨e, by simp [runReplace, hu, hd, he]⟩

/-- Claim C6: `replaceConversation` is all-or-nothing — when any step of
the transaction body fails (upsert, delete, or any insert), the stored
state is exactly the previously committed one and subsequent reads
observe it unchanged. -/
theorem c6_replace_all_or_nothing (ienv : SQLiteChatMemory.InitEnv) (renv : ReplaceEnv)
    (m : SQLiteChatMemory.Memory) (cid : String) (rows : List ChatMemoryMessage) (now : Nat)
    (hfail : renv.upsertThrows = true ∨ renv.deleteThrows = true ∨
      ∃ i, i < rows.length ∧ renv.insertThrows i = true) :
    ((SQLiteChatMemory.replaceConversation ienv renv m cid rows now).1 =
      SQLiteChatMemory.ensureDatabase ienv m) ∧
    (∀ (qenv : SQLiteChatMemory.QueryEnv) (qid : String),
      (SQLiteChatMemory.getMessages ienv qenv
        (SQLiteChatMemory.replaceConversation ienv renv m cid rows now).1 qid).2 =
      (SQLiteChatMemory.getMessages ienv qenv
        (SQLiteChatMemory.ensureDatabase ienv m) qid).2) := by
  have hfirst : (SQLiteChatMemory.replaceConversation ienv renv m cid rows now).1 =
      SQLiteChatMemory.ensureDatabase ienv m := by
    cases h : (SQLiteChatMemory.ensureDatabase ienv m).database with
    | none => simp [SQLiteChatMemory.replaceConversation, h]
    | some db =>
      obtain ⟨e, he⟩ := runReplace_error renv db cid rows now hfail
      simp [SQLiteChatMemory.replaceConversation, h, he]
  exact ⟨hfirst, fun qenv qid => by rw [hfirst]⟩


/-- The message rows that a successful `replaceConversation` transaction
inserts, with their AUTOINCREMENT ids. -/
def rowsToMsgRows (cid : String) (now : Nat) : Nat → List ChatMemoryMessage → List MsgRow
  | _, [] => []
  | nid, row :: rest =>
    ⟨nid, cid, row.role, row.content, (row.metadata.map (fun mm => jsonStringify (.obj mm))),
      row.sequence, row.createdAt.getD now⟩ :: rowsToMsgRows cid now (nid + 1) rest

theorem insertRows_ok (cid : String) (now : Nat) :
    ∀ (rows : List ChatMemoryMessage) (k : Nat) (db : DbState),
      insertRows okReplaceEnv cid now k db rows =
        .ok ⟨db.conversations, db.chat_messages ++ rowsToMsgRows cid now db.nextId rows,
          db.nextId + rows.length⟩ := by
  intro rows
  induction rows with
  | nil => intro k db; simp [insertRows, rowsToMsgRows]
  | cons r rest ih =>
    intro k db
    simp only [insertRows, show okReplaceEnv.insertThrows k = false from rfl,
      Bool.false_eq_true, if_false]
    rw [ih]
    simp [insertMessage, rowsToMsgRows]
    omega

theorem upsert_nextId (db : DbState) (cid : String) (a b : Nat) :
    (upsertConversation db cid a b).nextId = db.nextId := by
  simp only [upsertConversation]
  split <;> rfl

theorem upsert_chat_messages (db : DbState) (cid : String) (a b : Nat) :
    (upsertConversation db cid a b).chat_messages = db.chat_messages := by
  simp only [upsertConversation]
  split <;> rfl

theorem runReplace_ok (db : DbState) (cid : String) (rows : List ChatMemoryMessage)
    (now : Nat) :
    runReplace okReplaceEnv db cid rows now =
      .ok ⟨(upsertConversation db cid now now).conversations,
        (db.chat_messages.filter (fun r => r.conversation_id != cid)) ++
          rowsToMsgRows cid now db.nextId rows,
        db.nextId + rows.length⟩ := by
  simp only [runReplace, show okReplaceEnv.upsertThrows = false from rfl,
    show okReplaceEnv.deleteThrows = false from rfl, Bool.false_eq_true, if_false]
  rw [insertRows_ok]
  simp [deleteMessages, upsert_nextId, upsert_chat_messages]

theorem insertBySeq_le (r : MsgRow) (l : List MsgRow)
    (h : ∀ x ∈ l, r.sequence ≤ x.sequence) : insertBySeq r l = r :: l := by
  cases l with
  | nil => simp [insertBySeq]
  | cons x xs => simp [insertBySeq, h x (by simp)]

theorem sortBySeq_pairwise (l : List MsgRow)
    (h : l.Pairwise (fun a b => a.sequence ≤ b.sequence)) : sortBySeq l = l := by
  induction l with
  | nil => simp [sortBySeq]
  | cons x xs ih =>
    rw [List.pairwise_cons] at h
    simp only [sortBySeq]
    rw [ih h.2, insertBySeq_le x xs h.1]

theorem filter_after_delete (cid : String) : ∀ (l : List MsgRow),
    (l.filter (fun r => r.conversation_id != cid)).filter
      (fun r => r.conversation_id == cid) = [] := by
  intro l
  induction l with
  | nil => simp
  | cons r t ih =>
    by_cases h : r.conversation_id = cid
    · simp [List.filter_cons, h, ih]
    · simp [List.filter_cons, h, ih]

theorem filter_rowsToMsgRows (cid : String) (now : Nat) :
    ∀ (rows : List ChatMemoryMessage) (nid : Nat),
      (rowsToMsgRows cid now nid rows).filter (fun r => r.conversation_id == cid) =
        rowsToMsgRows cid now nid rows := by
  intro rows
  induction rows with
  | nil => simp [rowsToMsgRows]
  | cons r rest ih => intro nid; simp [rowsToMsgRows, List.filter, ih]

theorem rowsToMsgRows_sequences (cid : String) (now : Nat) :
    ∀ (rows : List ChatMemoryMessage) (nid : Nat),
      (rowsToMsgRows cid now nid rows).map (fun r => r.sequence) =
        rows.map (fun r => r.sequence) := by
  intro rows
  induction rows with
  | nil => simp [rowsToMsgRows]
  | cons r rest ih => intro nid; simp [rowsToMsgRows, ih]

theorem serializeFrom_sequences (now : Nat) :
    ∀ (msgs : List BaseMessage) (k : Nat),
      (serializeFrom now k msgs).map (fun r => r.sequence) =
        List.range' k msgs.length := by
  intro msgs
  induction msgs with
  | nil => simp [serializeFrom]
  | cons m rest ih =>
    intro k
    simp [serializeFrom, serializeMessage, ih, List.range']

theorem rowsToMsgRows_seq_lb (cid : String) (now now2 : Nat) :
    ∀ (msgs : List BaseMessage) (k nid : Nat) (x : MsgRow),
      x ∈ rowsToMsgRows cid now2 nid (serializeFrom now k msgs) → k ≤ x.sequence := by
  intro msgs
  induction msgs with
  | nil => intro k nid x hx; simp [serializeFrom, rowsToMsgRows] at hx
  | cons m rest ih =>
    intro k nid x hx
    simp only [serializeFrom, rowsToMsgRows, List.mem_cons] at hx
    rcases hx with hx | hx
    · subst hx; simp [serializeMessage]
    · have := ih (k + 1) (nid + 1) x hx
      omega

theorem rowsToMsgRows_pairwise (cid : String) (now now2 : Nat) :
    ∀ (msgs : List BaseMessage) (k nid : Nat),
      (rowsToMsgRows cid now2 nid (serializeFrom now k msgs)).Pairwise
        (fun a b => a.sequence ≤ b.sequence) := by
  intro msgs
  induction msgs with
  | nil => intro k nid; simp [serializeFrom, rowsToMsgRows]
  | cons m rest ih =>
    intro k nid
    simp only [serializeFrom, rowsToMsgRows, List.pairwise_cons]
    refine ⟨fun x hx => ?_, ih (k + 1) (nid + 1)⟩
    have := rowsToMsgRows_seq_lb cid now now2 rest (k + 1) (nid + 1) x hx
    simp [serializeMessage]
    omega

theorem storedSequences_replace (db : DbState) (cid : String) (msgs : List BaseMessage)
    (now : Nat) :
    storedSequences (sqliteOkImpl.replaceConversation db cid (serializeFrom now 0 msgs) now)
      cid = List.range msgs.length := by
  show storedSequences
      (match runReplace okReplaceEnv db cid (serializeFrom now 0 msgs) now with
        | .ok db1 => db1
        | .error _ => db) cid = List.range msgs.length
  rw [runReplace_ok]
  simp only [storedSequences, selectMessages, List.filter_append, filter_after_delete,
    filter_rowsToMsgRows, List.nil_append]
  rw [sortBySeq_pairwise _ (rowsToMsgRows_pairwise cid now now msgs 0 db.nextId)]
  rw [rowsToMsgRows_sequences, serializeFrom_sequences]
  exact (List.range_eq_range' msgs.length).symm

/-- Claim C2: outside restoring mode every mutating operation rewrites
the stored row set so that the sequences are exactly `0..N-1`, `N` being
the length of the current in-memory list (`removeLast` on an empty list
performs no write and changes nothing). -/
theorem c2_full_replace_dense_sequences (p : State) (db : DbState) (msg : BaseMessage)
    (pos : Option Nat) (n now : Nat) (hp : p.restoring = false) :
    (storedSequences (add sqliteOkImpl p db msg pos now).2 p.conversationId =
      List.range ((add sqliteOkImpl p db msg pos now).1.base.messages.length)) ∧
    (p.base.messages ≠ [] →
      storedSequences ((removeLast sqliteOkImpl p db now).1).2 p.conversationId =
        List.range (((removeLast sqliteOkImpl p db now).1).1.base.messages.length)) ∧
    (storedSequences (setMaxTokens sqliteOkImpl p db n now).2 p.conversationId =
      List.range ((setMaxTokens sqliteOkImpl p db n now).1.base.messages.length)) ∧
    (p.base.messages = [] → removeLast sqliteOkImpl p db now = ((p, db), false)) := by
  refine ⟨?_, fun hne => ?_, ?_, fun hemp => ?_⟩
  · simp only [add, hp, Bool.false_eq_true, if_false, persistMessages]
    exact storedSequences_replace db p.conversationId _ now
  · have hemp : p.base.messages.isEmpty = false := by
      cases hm : p.base.messages <;> simp_all
    simp only [removeLast, MessageManagerState.baseRemoveLast, hemp, Bool.false_eq_true,
      if_false, hp, not_false_iff, and_true, if_true, persistMessages]
    exact storedSequences_replace db p.conversationId _ now
  · simp only [setMaxTokens, hp, Bool.false_eq_true, if_false, persistMessages]
    exact storedSequences_replace db p.conversationId _ now
  · have hemp' : p.base.messages.isEmpty = true := by simp [hemp]
    simp [removeLast, MessageManagerState.baseRemoveLast, hemp']


/-- The scenario of claim C2: a controller over an open empty database. -/
def c2Step0 : State × DbState := create sqliteOkImpl "conv" 64 ⟨[], [], 0⟩

/-- First add of the C2 scenario. -/
def c2Step1 : State × DbState :=
  add sqliteOkImpl c2Step0.1 c2Step0.2 (.system (.str "s") []) none 5

/-- Second add of the C2 scenario. -/
def c2Step2 : State × DbState :=
  add sqliteOkImpl c2Step1.1 c2Step1.2 (.human (.str "h") []) none 5

/-- Third add of the C2 scenario. -/
def c2Step3 : State × DbState :=
  add sqliteOkImpl c2Step2.1 c2Step2.2 (.ai (.str "a") [] [] [] none) none 5

theorem c2_full_replace_dense_sequences_witness :
    storedSequences ((removeLast sqliteOkImpl c2Step3.1 c2Step3.2 5).1).2 "conv" = [0, 1] ∧
    (selectMessages ((removeLast sqliteOkImpl c2Step3.1 c2Step3.2 5).1).2 "conv").length = 2 := by
  have h := (c2_full_replace_dense_sequences c2Step3.1 c2Step3.2 (.system (.str "s") [])
    none 0 5 (by decide)).2.1 (by decide)
  exact ⟨h.trans (by decide), by decide⟩

theorem c5_storage_adapter_never_raises_witness :
    ((SQLiteChatMemory.initializeStore ⟨true, .ok ⟨[], [], 0⟩⟩ ⟨none⟩).2 = .ok ()) ∧
    ((SQLiteChatMemory.getMessages ⟨false, .error "no driver"⟩ ⟨false⟩ ⟨none⟩ "c").2 =
      .ok []) ∧
    ((SQLiteChatMemory.isAvailable ⟨false, .error "no driver"⟩ ⟨none⟩).2 = false) :=
  ⟨(c5_storage_adapter_never_raises ⟨true, .ok ⟨[], [], 0⟩⟩ ⟨false⟩ okReplaceEnv okClearEnv
      ⟨none⟩ "c" [] 0).1,
    (c5_storage_adapter_never_raises ⟨false, .error "no driver"⟩ ⟨false⟩ okReplaceEnv
      okClearEnv ⟨none⟩ "c" [] 0).2.2.2.1 (by decide),
    (c5_storage_adapter_never_raises ⟨false, .error "no driver"⟩ ⟨false⟩ okReplaceEnv
      okClearEnv ⟨none⟩ "c" [] 0).2.2.2.2.2.2.2.2 rfl (Or.inl rfl)⟩

theorem c6_replace_all_or_nothing_witness :
    (SQLiteChatMemory.replaceConversation ⟨true, .ok ⟨[], [], 0⟩⟩
      ⟨false, false, fun i => decide (i = 1)⟩
      ⟨some ⟨[⟨"conv", 0, 0⟩], [⟨0, "conv", .human, "x", none, 0, 0⟩], 1⟩⟩ "conv"
      [⟨.human, "y", 0, some 1, none⟩, ⟨.ai, "z", 1, some 1, none⟩] 1).1 =
    SQLiteChatMemory.ensureDatabase ⟨true, .ok ⟨[], [], 0⟩⟩
      ⟨some ⟨[⟨"conv", 0, 0⟩], [⟨0, "conv", .human, "x", none, 0, 0⟩], 1⟩⟩ :=
  (c6_replace_all_or_nothing ⟨true, .ok ⟨[], [], 0⟩⟩
    ⟨false, false, fun i => decide (i = 1)⟩
    ⟨some ⟨[⟨"conv", 0, 0⟩], [⟨0, "conv", .human, "x", none, 0, 0⟩], 1⟩⟩ "conv"
    [⟨.human, "y", 0, some 1, none⟩, ⟨.ai, "z", 1, some 1, none⟩] 1
    (Or.inr (Or.inr ⟨1, by decide, by decide⟩))).1


/-! ## Heap model of the transient backend

The value-level `InMemoryChatMemory` model cannot express JavaScript
reference aliasing, which claim C8 is about.  Here row objects and
metadata objects are heap cells; the source's defensive copies
`{ ...message, metadata: message.metadata ? { ...message.metadata } : undefined }`
are one-level cell copies, and external mutation is a field write
through a reference. -/

/-- A heap address. -/
abbrev Ref := Nat

/-- A JavaScript value stored in an object field: a primitive or a
reference to another heap object. -/
inductive HVal where
  | str (s : String)
  | num (n : Int)
  | bool (b : Bool)
  | null
  | ref (r : Ref)
  deriving DecidableEq

/-- A mutable JavaScript object: its own fields, in insertion order. -/
abbrev HObj := List (String × HVal)

/-- A heap: object cells addressed by allocation order. -/
structure Heap where
  cells : List HObj
  deriving DecidableEq

def Heap.get (h : Heap) (r : Ref) : HObj := h.cells.getD r []

def Heap.size (h : Heap) : Nat := h.cells.length

def Heap.alloc (h : Heap) (o : HObj) : Heap × Ref := (⟨h.cells ++ [o]⟩, h.cells.length)

/-- Property read on an object's own fields. -/
def hobjGet (k : String) : HObj → Option HVal
  | [] => none
  | (k', v) :: rest => if k = k' then some v else hobjGet k rest

/-- Property assignment on an object's own fields. -/
def objSet (o : HObj) (k : String) (v : HVal) : HObj :=
  if o.any (fun kv => kv.1 == k) then
    o.map (fun kv => if kv.1 == k then (k, v) else kv)
  else o ++ [(k, v)]

/-- Mutation `obj[k] = v` through reference `r`. -/
def Heap.writeField (h : Heap) (r : Ref) (k : String) (v : HVal) : Heap :=
  ⟨h.cells.set r (objSet (h.get r) k v)⟩

/-- The `metadata` field of a row object when it holds an object
reference (rows carry `Record | undefined` metadata, so the truthiness
test of the source distinguishes exactly these two cases). -/
def metaRefOf (fields : HObj) : Option Ref :=
  match hobjGet "metadata" fields with
  | some (.ref mr) => some mr
  | _ => none

/-- The backend's per-row copy in `replaceConversation` / `getMessages`:
spread the row's fields (nested references shared), and replace
`metadata` with a freshly allocated one-level copy of the metadata
object when it is a (truthy) reference, `undefined` otherwise. -/
def copyRow (h : Heap) (r : Ref) : Heap × Ref :=
  let fields := h.get r
  match metaRefOf fields with
  | some mr =>
    let h1mr := h.alloc (h.get mr)
    h1mr.1.alloc (objSet fields "metadata" (.ref h1mr.2))
  | none => h.alloc (objSet fields "metadata" .null)

/-- The backend's row-list copy (`messages.map(...)`). -/
def copyRows (h : Heap) : List Ref → Heap × List Ref
  | [] => (h, [])
  | r :: rs =>
    let h1r := copyRow h r
    let h2rs := copyRows h1r.1 rs
    (h2rs.1, h1r.2 :: h2rs.2)

/-- Deep observation of a value, following references (`fuel` bounds the
depth; every acyclic concrete observation stabilizes once `fuel` exceeds
the reference depth). -/
def observe (h : Heap) : Nat → HVal → JsonValue
  | _, .str s => .str s
  | _, .num n => .num n
  | _, .bool b => .bool b
  | _, .null => .null
  | 0, .ref _ => .null
  | fuel + 1, .ref r => .obj ((h.get r).map (fun kv => (kv.1, observe h fuel kv.2)))

/-- Whether a field value only references cells below `n`. -/
def HVal.refBelow : HVal → Nat → Bool
  | .ref r, n => decide (r < n)
  | _, _ => true

/-- All cells below `n` reference only cells below `n`. -/
def heapClosedBelow (h : Heap) (n : Nat) : Prop :=
  ∀ i, i < n → ∀ kv ∈ h.get i, kv.2.refBelow n = true

instance (h : Heap) (n : Nat) : Decidable (heapClosedBelow h n) := by
  unfold heapClosedBelow
  infer_instance

/-- The heap-level transient store: conversation id to the backend's
private row references. -/
abbrev HeapStore := List (String × List Ref)

/-- Association-list read of the heap-level store. -/
def heapStoreLookup (k : String) : HeapStore → Option (List Ref)
  | [] => none
  | (k', v) :: rest => if k = k' then some v else heapStoreLookup k rest

/-- Association-list write of the heap-level store. -/
def heapStoreSet (k : String) (v : List Ref) : HeapStore → HeapStore
  | [] => [(k, v)]
  | (k', v') :: rest => if k = k' then (k, v) :: rest else (k', v') :: heapStoreSet k v rest

/-- `InMemoryChatMemory.replaceConversation` at the heap level: store
one-level copies of the given row objects. -/
def heapReplaceConversation (h : Heap) (st : HeapStore) (cid : String) (rows : List Ref) :
    Heap × HeapStore :=
  ((copyRows h rows).1, heapStoreSet cid (copyRows h rows).2 st)

/-- `InMemoryChatMemory.getMessages` at the heap level: return one-level
copies of the stored row objects. -/
def heapGetMessages (h : Heap) (st : HeapStore) (cid : String) : Heap × List Ref :=
  copyRows h ((heapStoreLookup cid st).getD [])


theorem heap_get_of_prefix (h h' : Heap) (ext : List HObj) (he : h'.cells = h.cells ++ ext)
    (i : Nat) (hi : i < h.size) : h'.get i = h.get i := by
  simp only [Heap.get, he]
  exact List.getD_append _ _ _ i hi

theorem writeField_get_ne (h : Heap) (q : Ref) (k : String) (v : HVal) (i : Nat)
    (hiq : i ≠ q) : (h.writeField q k v).get i = h.get i := by
  simp only [Heap.writeField, Heap.get, List.getD_eq_getElem?_getD]
  rw [List.getElem?_set_ne (fun he => hiq he.symm)]

theorem heap_get_alloc (h : Heap) (o : HObj) : (h.alloc o).1.get (h.alloc o).2 = o := by
  simp only [Heap.alloc, Heap.get, List.getD_eq_getElem?_getD]
  rw [List.getElem?_append]
  simp

theorem observe_agree (n : Nat) (h h' : Heap)
    (hag : ∀ i, i < n → h'.get i = h.get i)
    (hcl : heapClosedBelow h n) :
    ∀ (fuel : Nat) (r : Ref), r < n →
      observe h' fuel (.ref r) = observe h fuel (.ref r) := by
  intro fuel
  induction fuel with
  | zero => intro r hr; rfl
  | succ f ih =>
    intro r hr
    simp only [observe]
    rw [hag r hr]
    refine congrArg JsonValue.obj (List.map_congr_left ?_)
    intro kv hkv
    cases hv2 : kv.2 with
    | str s => simp [observe]
    | num m => simp [observe]
    | bool b => simp [observe]
    | null => simp [observe]
    | ref r2 =>
      have hb := hcl r hr kv hkv
      rw [hv2] at hb
      simp only [HVal.refBelow, decide_eq_true_eq] at hb
      rw [ih r2 hb]

theorem copyRow_cells (h : Heap) (r : Ref) :
    ∃ ext, (copyRow h r).1.cells = h.cells ++ ext := by
  cases hm : metaRefOf (h.get r) with
  | none =>
    refine ⟨[objSet (h.get r) "metadata" .null], ?_⟩
    simp [copyRow, hm, Heap.alloc]
  | some mr =>
    refine ⟨[h.get mr, objSet (h.get r) "metadata" (.ref (h.cells.length))], ?_⟩
    simp [copyRow, hm, Heap.alloc]

theorem copyRow_ref_ge (h : Heap) (r : Ref) : h.size ≤ (copyRow h r).2 := by
  cases hm : metaRefOf (h.get r) with
  | none => simp [copyRow, hm, Heap.alloc, Heap.size]
  | some mr => simp [copyRow, hm, Heap.alloc, Heap.size]

theorem copyRow_size_ge (h : Heap) (r : Ref) : h.size ≤ (copyRow h r).1.size := by
  obtain ⟨ext, he⟩ := copyRow_cells h r
  simp [Heap.size, he]

theorem copyRows_cells (rs : List Ref) :
    ∀ h, ∃ ext, (copyRows h rs).1.cells = h.cells ++ ext := by
  induction rs with
  | nil => intro h; exact ⟨[], by simp [copyRows]⟩
  | cons r rest ih =>
    intro h
    obtain ⟨e1, he1⟩ := copyRow_cells h r
    obtain ⟨e2, he2⟩ := ih (copyRow h r).1
    exact ⟨e1 ++ e2, by simp [copyRows, he2, he1]⟩

theorem copyRows_size_ge (rs : List Ref) : ∀ h, h.size ≤ (copyRows h rs).1.size := by
  intro h
  obtain ⟨ext, he⟩ := copyRows_cells rs h
  simp [Heap.size, he]

theorem copyRows_refs_ge (rs : List Ref) :
    ∀ h r', r' ∈ (copyRows h rs).2 → h.size ≤ r' := by
  induction rs with
  | nil => intro h r' hr'; simp [copyRows] at hr'
  | cons r rest ih =>
    intro h r' hr'
    simp only [copyRows, List.mem_cons] at hr'
    rcases hr' with hr' | hr'
    · subst hr'; exact copyRow_ref_ge h r
    · exact le_trans (copyRow_size_ge h r) (ih (copyRow h r).1 r' hr')

theorem objSet_map_get (o : HObj) (k : String) (v : HVal)
    (hany : o.any (fun kv => kv.1 == k) = true) :
    hobjGet k (o.map (fun kv => if kv.1 == k then (k, v) else kv)) = some v := by
  induction o with
  | nil => simp at hany
  | cons kv rest ih =>
    cases hk : (kv.1 == k) with
    | true =>
      simp only [List.map_cons, hk, if_true]
      simp [hobjGet]
    | false =>
      have hne : kv.1 ≠ k := by simpa using hk
      have hany' : rest.any (fun kv => kv.1 == k) = true := by
        simpa [List.any_cons, hk] using hany
      rw [List.map_cons, if_neg (by simp [hk] : ¬((kv.1 == k) = true))]
      simp only [hobjGet]
      rw [if_neg (fun he => hne he.symm)]
      exact ih hany'

theorem hobjGet_append_missing (o : HObj) (k : String) (v : HVal)
    (hany : o.any (fun kv => kv.1 == k) = false) :
    hobjGet k (o ++ [(k, v)]) = some v := by
  induction o with
  | nil => simp [hobjGet]
  | cons kv rest ih =>
    cases hk : (kv.1 == k) with
    | true => simp [List.any_cons, hk] at hany
    | false =>
      have hne : kv.1 ≠ k := by simpa using hk
      simp only [List.cons_append, hobjGet]
      rw [if_neg (fun he => hne he.symm)]
      exact ih (by simpa [List.any_cons, hk] using hany)

theorem objSet_get_same (o : HObj) (k : String) (v : HVal) :
    hobjGet k (objSet o k v) = some v := by
  unfold objSet
  cases hany : o.any (fun kv => kv.1 == k) with
  | true => simp only [if_true]; exact objSet_map_get o k v hany
  | false =>
    simp only [Bool.false_eq_true, if_false]
    exact hobjGet_append_missing o k v hany

theorem copyRow_row_cell (h : Heap) (r : Ref) :
    ∃ o, (copyRow h r).1.get (copyRow h r).2 = objSet (h.get r) "metadata" o ∧
      (∀ mr, o = .ref mr → h.size ≤ mr) := by
  cases hm : metaRefOf (h.get r) with
  | none =>
    refine ⟨.null, ?_, fun mr hmr => by simp at hmr⟩
    simp only [copyRow, hm]
    exact heap_get_alloc _ _
  | some mr =>
    refine ⟨.ref (h.alloc (h.get mr)).2, ?_, ?_⟩
    · simp only [copyRow, hm]
      exact heap_get_alloc _ _
    · intro mr' hmr'
      simp only [HVal.ref.injEq] at hmr'
      subst hmr'
      simp [Heap.alloc, Heap.size]


theorem copyRow_ref_lt (h : Heap) (r : Ref) : (copyRow h r).2 < (copyRow h r).1.size := by
  cases hm : metaRefOf (h.get r) with
  | none => simp [copyRow, hm, Heap.alloc, Heap.size]
  | some mr => simp [copyRow, hm, Heap.alloc, Heap.size]

theorem copyRows_metadata_fresh (rs : List Ref) :
    ∀ (h : Heap) (r' : Ref), r' ∈ (copyRows h rs).2 →
      ∀ mr, hobjGet "metadata" ((copyRows h rs).1.get r') = some (.ref mr) →
        h.size ≤ mr := by
  induction rs with
  | nil => intro h r' hr'; simp [copyRows] at hr'
  | cons r rest ih =>
    intro h r' hr' mr hget
    simp only [copyRows, List.mem_cons] at hr' hget
    rcases hr' with hr' | hr'
    · subst hr'
      have hlt := copyRow_ref_lt h r
      obtain ⟨ext, he⟩ := copyRows_cells rest (copyRow h r).1
      have hpres := heap_get_of_prefix (copyRow h r).1 (copyRows (copyRow h r).1 rest).1
        ext he (copyRow h r).2 hlt
      obtain ⟨o, ho, hfresh⟩ := copyRow_row_cell h r
      rw [hpres, ho, objSet_get_same] at hget
      exact hfresh mr ((Option.some.injEq _ _).mp hget)
    · have := ih (copyRow h r).1 r' hr' mr hget
      exact le_trans (copyRow_size_ge h r) this

set_option maxHeartbeats 1000000 in
/-- Claim C8, amended: the transient backend copies each row and its
metadata map one level deep, so the returned row objects and their
metadata objects are fresh cells, and mutating any such fresh cell — a
returned row's own field or a top-level entry of its metadata map —
leaves the deep value of every internally stored row unchanged; values
nested deeper inside metadata, by contrast, are shared by reference
(see the counterexample). -/
theorem c8_shallow_copy_isolation (h : Heap) (internal : List Ref)
    (hclosed : heapClosedBelow h h.size) (hvalid : ∀ r ∈ internal, r < h.size) :
    (∀ r', r' ∈ (copyRows h internal).2 → h.size ≤ r') ∧
    (∀ r', r' ∈ (copyRows h internal).2 → ∀ mr,
      hobjGet "metadata" ((copyRows h internal).1.get r') = some (.ref mr) →
        h.size ≤ mr) ∧
    (∀ q, h.size ≤ q → ∀ (k : String) (v : HVal) (fuel : Nat) (r : Ref), r ∈ internal →
      observe ((copyRows h internal).1.writeField q k v) fuel (.ref r) =
        observe h fuel (.ref r)) ∧
    (∀ (fuel : Nat) (r : Ref), r ∈ internal →
      observe (copyRows h internal).1 fuel (.ref r) = observe h fuel (.ref r)) := by
  obtain ⟨ext, he⟩ := copyRows_cells internal h
  have hag : ∀ i, i < h.size → (copyRows h internal).1.get i = h.get i :=
    fun i hi => heap_get_of_prefix h (copyRows h internal).1 ext he i hi
  refine ⟨fun r' hr' => copyRows_refs_ge internal h r' hr',
    fun r' hr' mr hget => copyRows_metadata_fresh internal h r' hr' mr hget,
    fun q hq k v fuel r hr => ?_, fun fuel r hr => ?_⟩
  · have hag2 : ∀ i, i < h.size →
        ((copyRows h internal).1.writeField q k v).get i = h.get i := by
      intro i hi
      rw [writeField_get_ne _ _ _ _ i (by omega), hag i hi]
    exact observe_agree h.size h _ hag2 hclosed fuel r (hvalid r hr)
  · exact observe_agree h.size h _ hag hclosed fuel r (hvalid r hr)

/-- A three-cell heap: a nested value object (cell 0), a metadata object
referencing it (cell 1), and a row object whose `metadata` field
references cell 1 (cell 2). -/
def c8Heap0 : Heap :=
  ⟨[[("x", .str "a")],
    [("k", .ref 0)],
    [("role", .str "tool"), ("content", .str "c"), ("metadata", .ref 1)]]⟩

/-- The heap and store after handing row 2 to `replaceConversation`. -/
def c8AfterReplace : Heap × HeapStore := heapReplaceConversation c8Heap0 [] "conv" [2]

/-- The deep values a `getMessages` call observes on heap `h`. -/
def c8Observed (h : Heap) : List JsonValue :=
  ((heapGetMessages h c8AfterReplace.2 "conv").2).map
    (fun r => observe (heapGetMessages h c8AfterReplace.2 "conv").1 10 (.ref r))

/-- Claim C8 as stated is false: mutating a value nested inside the
metadata map of the row that was passed to `replaceConversation` (and is
shared with every row `getMessages` returns) changes the result of a
subsequent `getMessages`, because the backend's copy is one level deep,
not deep. -/
theorem c8_nested_mutation_counterexample :
    c8Observed (c8AfterReplace.1.writeField 0 "x" (.str "b")) ≠
      c8Observed c8AfterReplace.1 := by
  decide

theorem c8_shallow_copy_isolation_witness :
    heapClosedBelow c8Heap0 c8Heap0.size ∧
    observe ((copyRows c8Heap0 [2]).1.writeField 4 "content" (.str "zz")) 10 (.ref 2) =
      observe c8Heap0 10 (.ref 2) :=
  ⟨by decide,
    (c8_shallow_copy_isolation c8Heap0 [2] (by decide) (by decide)).2.2.1 4 (by decide)
      "content" (.str "zz") 10 2 (by decide)⟩

end ChatMemory
